import Mathlib

/-!
Verification development for the sync engine core (`src/src/sync.cpp`).

The C++ source is embedded shallowly: paths are lists of characters,
node trees are inductive trees, the imperative loops of the reconciler
and the fsid-assignment pass are translated into structural recursion,
and mutation is explicit state passing.  Machine integers that never
overflow on the verified paths are modelled as `Nat`/`Int`.
-/

namespace SyncSpec

/-! ## PathOps: `computeReversePathMatchScore` (sync.cpp:397-440)

A `LocalPath`'s `localpath` member is modelled as a `List Char`;
`fsaccess.localseparator` is the `sep` parameter.  The C++ loop walks
both paths from the tail, counting matched characters (`index`),
crossed separators (`separatorBias`) and the characters accumulated
since the last crossed separator (`accumulated`).  The walk is the
structural recursion `revWalk` over the reversed character lists. -/

/-- Loop state of `computeReversePathMatchScore` at loop exit:
`index`, `separatorBias`, `accumulated.localpath.size()`, and whether
the loop consumed both paths entirely
(`index > path1End && index > path2End`). -/
structure WalkOut where
  idx : Nat
  bias : Nat
  acc : Nat
  full : Bool
  deriving Repr, DecidableEq

/-- The scan loop of `computeReversePathMatchScore` (sync.cpp:410-430),
expressed on the reversed paths: compare characters from the tail,
stop at the first mismatch or when either path is exhausted.  A matched
separator increments `separatorBias` and clears `accumulated`; any
other matched character is appended to `accumulated`. -/
def revWalk (sep : Char) : List Char → List Char → Nat → Nat → Nat → WalkOut
  | x :: a, y :: b, idx, bias, acc =>
    if x = y then
      if x = sep then revWalk sep a b (idx + 1) (bias + 1) 0
      else revWalk sep a b (idx + 1) bias (acc + 1)
    else ⟨idx, bias, acc, false⟩
  | [], [], idx, bias, acc => ⟨idx, bias, acc, true⟩
  | [], _ :: _, idx, bias, acc => ⟨idx, bias, acc, false⟩
  | _ :: _, [], idx, bias, acc => ⟨idx, bias, acc, false⟩

/-- Result formula of `computeReversePathMatchScore` (sync.cpp:432-439):
full match returns `index - separatorBias`, a partial match additionally
subtracts the dangling `accumulated` run. -/
def walkScore (w : WalkOut) : Int :=
  if w.full then (w.idx : Int) - w.bias else (w.idx : Int) - w.bias - w.acc

/-- `computeReversePathMatchScore` (sync.cpp:397-440): returns 0 when
either path is empty, otherwise runs the tail-to-head scan loop and
applies the result formula. -/
def computeReversePathMatchScore (sep : Char) (p1 p2 : List Char) : Int :=
  if p1 = [] ∨ p2 = [] then 0
  else walkScore (revWalk sep p1.reverse p2.reverse 0 0 0)

/-- Leaf name of a path: the maximal separator-free suffix. -/
def leafName (sep : Char) (p : List Char) : List Char :=
  (p.reverse.takeWhile (fun c => c ≠ sep)).reverse

/-- Number of separator characters in a path. -/
def sepCount (sep : Char) (p : List Char) : Nat :=
  p.countP (fun c => c = sep)

/-! ## Fingerprints (sync.cpp:135-227)

`LightFileFingerprint` holds a size and an mtime.  `hashCombine` and
`LightFileFingerprint::genfingerprint` are declared in headers that are
not part of `src/`, so they are modelled from the spec. -/

/-- Node type `nodetype_t` as used by the sync core: `FILENODE` or
`FOLDERNODE`. -/
inductive NType where
  | file
  | folder
  deriving Repr, DecidableEq

/-- `LightFileFingerprint`: a file size and a modification time. -/
structure LightFP where
  size : Int
  mtime : Int
  deriving Repr, DecidableEq

/-- Modelled from the spec: `hashCombine` is declared in a utility header
outside `src/`.  The spec (§3 "Fingerprint (light)", §4.2) requires a
symmetric (commutative) hash-combine operator on the fingerprint
components; it is modelled as integer addition, which is commutative and
associative. -/
def hashCombine (seed v : Int) : Int := seed + v

/-- `hashCombineFingerprint` (sync.cpp:135-139): combines another light
fingerprint into `ffp`, component by component. -/
def hashCombineFingerprint (ffp other : LightFP) : LightFP :=
  { size := hashCombine ffp.size other.size
    mtime := hashCombine ffp.mtime other.mtime }

/-- Modelled from the spec: `LightFileFingerprint::genfingerprint` is
declared outside `src/`; per the spec (§3, glossary) the light
fingerprint of a file is exactly its size and mtime. -/
def genLightFingerprint (size mtime : Int) : LightFP :=
  { size := size, mtime := mtime }

/-- The fields of `LocalNode` used by the fingerprint and
fsid-assignment code: a node identity standing in for the object's
address, whether the node is the sync's root `localroot`, its type,
size, mtime, its current `fsid` (`none` models `mega::UNDEF`), and its
full local path (`getLocalPath`). -/
structure LNode where
  nid : Nat
  isRoot : Bool
  ntype : NType
  size : Int
  mtime : Int
  fsid : Option Nat
  path : List Char
  deriving Repr, DecidableEq

/-- `combinedFingerprint` over a `localnode_map` (sync.cpp:142-157):
fold the light fingerprints of all file-type children into `ffp`;
the boolean records whether at least one file child was seen.  The
map's value sequence is passed as a list. -/
def combinedFingerprint (ffp : LightFP) (children : List LNode) : LightFP × Bool :=
  children.foldl
    (fun st l =>
      if l.ntype = NType.file then
        (hashCombineFingerprint st.1 (genLightFingerprint l.size l.mtime), true)
      else st)
    (ffp, false)

/-- The value of a default-constructed `LightFileFingerprint`, used by
`collectAllLocalNodes` as the folder accumulator seed. -/
def initLFP : LightFP := { size := 0, mtime := 0 }

/-- `computeFingerprint` for a `LocalNode` (sync.cpp:190-206): a file's
fingerprint is `(size, mtime)`; a folder's is the combination of its
file children, defined only when the folder has at least one file
child. -/
def computeFingerprint (l : LNode) (children : List LNode) : Option LightFP :=
  match l.ntype with
  | NType.file => some (genLightFingerprint l.size l.mtime)
  | NType.folder =>
    let r := combinedFingerprint initLFP children
    if r.2 then some r.1 else none

/-! ## Filesystem-id assignment (sync.cpp:229-490) -/

/-- A live filesystem entry as collected by `collectAllFiles` (struct
`FsFile`, sync.cpp:54-58): its filesystem id and absolute path. -/
structure FsFile where
  fsid : Nat
  path : List Char
  deriving Repr, DecidableEq

/-- A candidate pair of `assignFilesystemIdsImpl` (struct `Element`,
sync.cpp:343-348): the reverse path match score, the live file's fsid,
and the cached node (by identity). -/
structure Element where
  score : Int
  fsid : Nat
  nid : Nat
  deriving Repr, DecidableEq

/-- The candidate pair for one cached node and one live file. -/
def elemOf (sep : Char) (l : LNode) (f : FsFile) : Element :=
  { score := computeReversePathMatchScore sep l.path f.path
    fsid := f.fsid
    nid := l.nid }

/-- Candidate-pair construction of `assignFilesystemIdsImpl`
(sync.cpp:352-368): for every cached node of the fingerprint class
except the sync root, and every live file of the class, keep the pair
exactly when its reverse path match score is strictly positive. -/
def buildElements (sep : Char) (nodes : List LNode) (files : List FsFile) : List Element :=
  nodes.flatMap (fun l =>
    if l.isRoot then []
    else files.filterMap (fun f =>
      if 0 < (elemOf sep l f).score then some (elemOf sep l f) else none))

/-- The sort of sync.cpp:370-374: order candidate pairs by descending
score.  `std::sort` with the strict comparator `e1.score > e2.score`
guarantees only a descending arrangement (ties in unspecified order);
it is modelled by an insertion sort for the matching non-strict
order. -/
def sortElements (es : List Element) : List Element :=
  es.insertionSort (fun a b => b.score ≤ a.score)

/-- State threaded through the assignment pass: the `LocalNode` records
(the mutable `fsid` fields), the per-class `usedFsIds` set, the global
`fsidnodes` index as `(fsid, node)` entries, and the trace of `setfsid`
calls `(node, fsid)` performed so far. -/
structure GState where
  nodes : List LNode
  used : List Nat
  index : List (Nat × Nat)
  calls : List (Nat × Nat)
  deriving Repr, DecidableEq

/-- The node's current `fsid` field (`e.l->fsid`), looked up by node
identity. -/
def fsidOf (nodes : List LNode) (nid : Nat) : Option Nat :=
  match nodes.find? (fun n => n.nid = nid) with
  | some n => n.fsid
  | none => none

/-- Modelled from the spec: `LocalNode::setfsid` is declared outside
`src/`.  Per §4.3 it removes the node's prior fsid-index entry if any,
installs the new `(fsid, node)` mapping, and sets the node's `fsId`.
The call is also appended to the trace. -/
def setfsid (st : GState) (nid fsid : Nat) : GState :=
  { st with
    nodes := st.nodes.map (fun n => if n.nid = nid then { n with fsid := some fsid } else n)
    index := (fsid, nid) :: st.index.filter (fun e => e.2 ≠ nid)
    calls := st.calls ++ [(nid, fsid)] }

/-- One step of the greedy assignment loop (sync.cpp:377-386): a pair is
acted on when its node is not yet assigned (`e.l->fsid == UNDEF`) and
its fsid has not been consumed (`usedFsIds`); then `setfsid` is called
and the fsid is recorded as used. -/
def greedyStep (st : GState) (e : Element) : GState :=
  if fsidOf st.nodes e.nid = none ∧ e.fsid ∉ st.used then
    let st1 := setfsid st e.nid e.fsid
    { st1 with used := e.fsid :: st1.used }
  else st

/-- The per-fingerprint-class body of `assignFilesystemIdsImpl`
(sync.cpp:325-391): build the candidate pairs from the class's cached
nodes and live files, sort them by descending score, and run the greedy
assignment with a fresh `usedFsIds` set. -/
def runClass (sep : Char) (st : GState) (clsNids : List Nat) (files : List FsFile) : GState :=
  let elems := sortElements (buildElements sep (st.nodes.filter (fun n => n.nid ∈ clsNids)) files)
  elems.foldl greedyStep { st with used := [] }

/-- `assignFilesystemIdsImpl` (sync.cpp:320-393): process every
fingerprint class in turn.  A class is the cached nodes and live files
that share one light fingerprint. -/
def assignFilesystemIdsImpl (sep : Char) (classes : List (List Nat × List FsFile))
    (st : GState) : GState :=
  classes.foldl (fun s cls => runClass sep s cls.1 cls.2) st

/-- The cached `LocalNode` tree (children of `l->children`). -/
inductive LTree where
  | mk (top : LNode) (children : List LTree)
  deriving Repr

/-- The record at the top of a tree. -/
def LTree.topRec : LTree → LNode
  | .mk r _ => r

mutual

/-- The nodes visited by `collectAllLocalNodes` (sync.cpp:232-257) in
visit order: every node is visited, but the walk does not descend below
a file node (`if (l.type == FILENODE) return`). -/
def collectedNodes : LTree → List LNode
  | .mk r cs => r :: (if r.ntype = NType.file then [] else collectedForest cs)

/-- `collectedNodes` over a child list. -/
def collectedForest : List LTree → List LNode
  | [] => []
  | t :: ts => collectedNodes t ++ collectedForest ts

end

mutual

/-- The fingerprint buckets built by `collectAllLocalNodes`
(sync.cpp:242-248): each visited node whose fingerprint is computable is
inserted into the multimap keyed by that fingerprint.  A folder's
fingerprint is computed from its direct children. -/
def collectBuckets : LTree → List (LightFP × Nat)
  | .mk r cs =>
    (match computeFingerprint r (cs.map LTree.topRec) with
     | some fp => [(fp, r.nid)]
     | none => []) ++
    (if r.ntype = NType.file then [] else collectBucketsForest cs)

/-- `collectBuckets` over a child list. -/
def collectBucketsForest : List LTree → List (LightFP × Nat)
  | [] => []
  | t :: ts => collectBuckets t ++ collectBucketsForest ts

end

/-- The result of opening the sync root (`fa->fopen`, `fa->type`,
`fa->mIsSymLink` in sync.cpp:448-465). -/
structure RootAttrs where
  openOk : Bool
  ntype : NType
  isSymLink : Bool
  deriving Repr, DecidableEq

/-- The success flag of `assignFilesystemIds` (sync.cpp:442-490).  The
filesystem interaction is abstracted: `root` is the outcome of opening
the sync root, `localnodesEmpty` tells whether the collection phase
found no fingerprintable cached node, and `collectOk` is the success
flag produced by the `collectAllFiles` walk of the live filesystem. -/
def assignFilesystemIds (root : RootAttrs) (localnodesEmpty collectOk : Bool) : Bool :=
  if !root.openOk then false
  else if root.ntype ≠ NType.folder then false
  else if root.isSymLink then false
  else if localnodesEmpty then true
  else collectOk

/-- The fingerprint classes of one `assignFilesystemIdsImpl` run: for
every distinct fingerprint, the cached nodes and the live files
bucketed under it. -/
def fpClasses (nodeBuckets : List (LightFP × Nat)) (fileBuckets : List (LightFP × FsFile)) :
    List (List Nat × List FsFile) :=
  (nodeBuckets.map Prod.fst ++ fileBuckets.map Prod.fst).dedup.map (fun fp =>
    ((nodeBuckets.filter (fun b => b.1 = fp)).map Prod.snd,
     (fileBuckets.filter (fun b => b.1 = fp)).map Prod.snd))

/-- The in-memory effect of a full `assignFilesystemIds` run
(sync.cpp:468-489) on the cached tree and the fsid index: collect all
cached nodes (clearing every visited node's `fsid` and dropping it from
the index) and bucket them by light fingerprint; bucket the live files
by fingerprint (`fileBuckets` abstracts the `collectAllFiles` walk);
then run `assignFilesystemIdsImpl` over the fingerprint classes. -/
def assignFsidsPass (sep : Char) (t : LTree) (index0 : List (Nat × Nat))
    (fileBuckets : List (LightFP × FsFile)) : GState :=
  assignFilesystemIdsImpl sep (fpClasses (collectBuckets t) fileBuckets)
    { nodes := (collectedNodes t).map (fun n => { n with fsid := none })
      used := []
      index := index0.filter (fun e => e.2 ∉ (collectedNodes t).map LNode.nid)
      calls := [] }

/-- All cached-node times live-file pairs of one fingerprint class,
with no filtering: the reference list the candidate-pair construction
is compared against. -/
def allPairs (sep : Char) (nodes : List LNode) (files : List FsFile) : List Element :=
  nodes.flatMap (fun l => files.map (fun f => elemOf sep l f))

/-- The sorted candidate-pair list of one fingerprint class. -/
def classElems (sep : Char) (nodes : List LNode) (files : List FsFile) : List Element :=
  sortElements (buildElements sep nodes files)

/-- The state at the start of one fingerprint class. -/
def classState0 (nodes : List LNode) (idx0 : List (Nat × Nat)) : GState :=
  { nodes := nodes, used := [], index := idx0, calls := [] }

/-- The state of the greedy loop after its first `k` iterations. -/
def classStateAt (sep : Char) (nodes : List LNode) (files : List FsFile)
    (idx0 : List (Nat × Nat)) (k : Nat) : GState :=
  ((classElems sep nodes files).take k).foldl greedyStep (classState0 nodes idx0)

/-! ## Scan queue: `localnodebypath` and `procscanq`
(sync.cpp:992-1060 and 1841-1867) -/

/-- The `LocalNode` tree flags
`{SYNCTREE_RESOLVED, SYNCTREE_ACTION_HERE_ONLY,
SYNCTREE_ACTION_HERE_AND_BELOW}`. -/
inductive TreeAction where
  | resolved
  | hereOnly
  | hereAndBelow
  deriving Repr, DecidableEq

/-- A `LocalNode` as seen by path resolution: its `children` and
`schildren` maps from leaf name to child node.  Leaf names are abstract
identifiers. -/
inductive PTree where
  | mk (children : List (Nat × PTree)) (schildren : List (Nat × PTree))

/-- The `children` map of a node. -/
def PTree.children : PTree → List (Nat × PTree)
  | .mk cs _ => cs

/-- The `schildren` map of a node. -/
def PTree.schildren : PTree → List (Nat × PTree)
  | .mk _ scs => scs

/-- Map lookup (`l->children.find(&component)`). -/
def lookupChild (m : List (Nat × PTree)) (name : Nat) : Option PTree :=
  match m.find? (fun e => e.1 = name) with
  | some e => some e.2
  | none => none

/-- `Sync::localnodebypath` (sync.cpp:996-1060) from a non-null start
node: walk the path components, looking each up in `children` and then
in `schildren`.  On a miss, return `none` together with the residual
path (the unmatched component followed by the remainder,
sync.cpp:1036-1048); after a full walk, return the reached node and an
empty residual (sync.cpp:1054-1059). -/
def localnodebypath : PTree → List Nat → Option PTree × List Nat
  | l, [] => (some l, [])
  | l, c :: rest =>
    match lookupChild l.children c with
    | some child => localnodebypath child rest
    | none =>
      match lookupChild l.schildren c with
      | some child => localnodebypath child rest
      | none => (none, c :: rest)

/-- One `setFutureScan`/`setFutureSync` request recorded while
processing a notification: the path of the target node relative to the
notification's start node, and the scan and sync action values
passed. -/
structure FlagCall where
  target : List Nat
  scan : TreeAction
  sync : TreeAction
  deriving Repr, DecidableEq

/-- `Sync::procscanq` for a single notification carrying a non-null
start node and a relative path (sync.cpp:1850-1859): resolve the path
with `localnodebypath`, passing null for the `parent` out-parameter;
only when a node is returned are its flags raised, with `here-only`
when the residual path is empty and `here-and-below` otherwise. -/
def procscanqOne (l : PTree) (path : List Nat) : List FlagCall :=
  match localnodebypath l path with
  | (some _, remainder) =>
    [{ target := path
       scan := if remainder = [] then TreeAction.hereOnly else TreeAction.hereAndBelow
       sync := if remainder = [] then TreeAction.hereOnly else TreeAction.hereAndBelow }]
  | (none, _) => []

/-! ## Reconciler: `recursiveSync` and `syncItem` (sync.cpp:1952-2332)

Names are abstract identifiers compared through the filesystem-specific
comparator `NameCmp(mFilesystemType)`, modelled by a key function
`key : Nat → Nat`: two names collide exactly when their keys are equal
(for instance case-folding on a case-preserving filesystem).  `NameCmp`
is declared outside `src/`; per its uses in sync.cpp:2052-2056 its
call operator is the strict less-than passed to `std::sort`, and
`NameCmp::compare` (sync.cpp:2079) is the three-way comparison. -/

/-- The fields of a cloud `Node` used by the reconciler: its canonical
name and whether `mPendingChanges` is non-empty. -/
structure CNode where
  name : Nat
  pending : Bool
  deriving Repr, DecidableEq

/-- The fields of a row's `LocalNode` used by the reconciler entry and
dispatch: name, node type, the two dirty flags, `syncedCloudNodeHandle`
(`none` models `UNDEF`), and whether an upload transfer is in
progress. -/
structure SNode where
  name : Nat
  ntype : NType
  scanAgain : TreeAction
  syncAgain : TreeAction
  syncedCloudNodeHandle : Option Nat
  transferActive : Bool
  deriving Repr, DecidableEq

/-- The fields of a scanned filesystem entry (`FSNode`) used by the
reconciler: name, type, and fsid. -/
structure FNode where
  name : Nat
  ntype : NType
  fsid : Option Nat
  deriving Repr, DecidableEq

/-- The cloud slot of a `syncRow`: a null `Node*`, the `NAME_CONFLICT`
sentinel (`reinterpret_cast<Node*>(~0u)`, sync.cpp:1955), or an actual
cloud node. -/
inductive CloudSlot where
  | null
  | conflict
  | node (c : CNode)
  deriving Repr, DecidableEq

/-- A `syncRow`: the triplet of same-name views. -/
structure SyncRow where
  cloudNode : CloudSlot
  syncNode : Option SNode
  fsNode : Option FNode
  deriving Repr, DecidableEq

/-- Pointer truthiness of the cloud slot: both a real node and the
`NAME_CONFLICT` sentinel are non-null pointers. -/
def cloudPresent : CloudSlot → Bool
  | .null => false
  | _ => true

/-- Whether `row.cloudNode && !row.cloudNode->mPendingChanges.empty()`
holds (sync.cpp:1969).  Dereferencing the sentinel never happens on the
rows `recursiveSync` is invoked on. -/
def cloudPendingOf : CloudSlot → Bool
  | .node c => c.pending
  | _ => false

/-- How the entry checks of `recursiveSync` (sync.cpp:1952-1973) leave
the function: the flag test at line 1958 dereferences `row.syncNode`
before the null test at line 1963, so a row with a missing sync node
never reaches any early return. -/
inductive EntryOutcome where
  | nullDerefOnSyncNode
  | returnNothingToDo
  | returnNoSyncNode
  | returnPendingChanges
  | proceed
  deriving Repr, DecidableEq

/-- The entry sequence of `recursiveSync` (sync.cpp:1952-1973), in
source order: read `row.syncNode->syncAgain` and
`row.syncNode->scanAgain` (line 1958), then test `!row.syncNode`
(line 1963), then test pending cloud changes (line 1969). -/
def recursiveSyncEntry (row : SyncRow) : EntryOutcome :=
  match row.syncNode with
  | none => EntryOutcome.nullDerefOnSyncNode
  | some sn =>
    if sn.syncAgain = TreeAction.resolved ∧ sn.scanAgain = TreeAction.resolved then
      EntryOutcome.returnNothingToDo
    else if row.syncNode.isNone then
      EntryOutcome.returnNoSyncNode
    else if cloudPendingOf row.cloudNode then
      EntryOutcome.returnPendingChanges
    else
      EntryOutcome.proceed

/-- Dropping a prefix never lengthens a list (used by the termination
arguments of the merge loops below). -/
theorem dropWhileLenLe {α : Type} (p : α → Bool) (l : List α) :
    (l.dropWhile p).length ≤ l.length :=
  (List.dropWhile_sublist p).length_le

/-- The tail of the run of entries equal (under the comparator) to the
head entry `f` of the filesystem list: `while (nextFS != end &&
!cloudCmpFS(*fsIter, *nextFS)) ++nextFS` (sync.cpp:2064-2065). -/
def fsRunTail (key : Nat → Nat) (f : FNode) (fss : List FNode) : List FNode :=
  fss.takeWhile (fun y => !decide (key f.name < key y.name))

/-- The filesystem list with the head run removed. -/
def fsRunRest (key : Nat → Nat) (f : FNode) (fss : List FNode) : List FNode :=
  fss.dropWhile (fun y => !decide (key f.name < key y.name))

/-- The sync-children list with the head run removed
(sync.cpp:2068-2069). -/
def syRunRest (key : Nat → Nat) (s : SNode) (sys : List SNode) : List SNode :=
  sys.dropWhile (fun y => !decide (key s.name < key y.name))

/-- The cloud slot given to a row built from filesystem entry `f`:
the `NAME_CONFLICT` sentinel when the head run of the filesystem list
has more than one entry (`fsEqualNodeCount > 1`, sync.cpp:2089-2097). -/
def fsRowCloud (key : Nat → Nat) (f : FNode) (fss : List FNode) : CloudSlot :=
  if (fsRunTail key f fss).length + 1 > 1 then CloudSlot.conflict else CloudSlot.null

/-- The fs/sync pairing loop of `recursiveSync` (sync.cpp:2058-2102):
walk the two sorted lists in merge order; the side with the smaller
head name is emitted alone, equal head names share a row; the emitting
side advances past its whole run of comparator-equal entries.  A row
that took its filesystem entry from a run of length greater than one is
emitted with the `NAME_CONFLICT` sentinel in the cloud slot. -/
def buildRows (key : Nat → Nat) : List FNode → List SNode → List SyncRow
  | [], [] => []
  | [], s :: sys =>
    { cloudNode := CloudSlot.null, syncNode := some s, fsNode := none } ::
      buildRows key [] (syRunRest key s sys)
  | f :: fss, [] =>
    { cloudNode := fsRowCloud key f fss, syncNode := none, fsNode := some f } ::
      buildRows key (fsRunRest key f fss) []
  | f :: fss, s :: sys =>
    if key f.name < key s.name then
      { cloudNode := fsRowCloud key f fss, syncNode := none, fsNode := some f } ::
        buildRows key (fsRunRest key f fss) (s :: sys)
    else if key s.name < key f.name then
      { cloudNode := CloudSlot.null, syncNode := some s, fsNode := none } ::
        buildRows key (f :: fss) (syRunRest key s sys)
    else
      { cloudNode := fsRowCloud key f fss, syncNode := some s, fsNode := some f } ::
        buildRows key (fsRunRest key f fss) (syRunRest key s sys)
  termination_by fs sy => fs.length + sy.length
  decreasing_by
  all_goals simp [fsRunRest, syRunRest]
  all_goals first
    | (have hd := dropWhileLenLe (fun y => !decide (key s.name < key y.name)) sys
       have := dropWhileLenLe (fun y => !decide (key f.name < key y.name)) fss
       omega)
    | (have hd := dropWhileLenLe (fun y => !decide (key s.name < key y.name)) sys; omega)
    | (have hd := dropWhileLenLe (fun y => !decide (key f.name < key y.name)) fss; omega)

/-- The sort key of `localCmpRow` (sync.cpp:2108-2113): the sync node's
name when present, else the fs node's name.  Rows produced by
`buildRows` always carry one of the two views; the 0 default stands for
the dereference that the source would perform on a row with neither. -/
def rowName (r : SyncRow) : Nat :=
  match r.syncNode with
  | some s => s.name
  | none =>
    match r.fsNode with
    | some f => f.name
    | none => 0

/-- The tail of the head run of comparator-equal rows
(sync.cpp:2130-2132). -/
def rowRunTail (key : Nat → Nat) (r : SyncRow) (rows : List SyncRow) : List SyncRow :=
  rows.takeWhile (fun r2 => !decide (key (rowName r) < key (rowName r2)))

/-- The row list with the head run removed. -/
def rowRunRest (key : Nat → Nat) (r : SyncRow) (rows : List SyncRow) : List SyncRow :=
  rows.dropWhile (fun r2 => !decide (key (rowName r) < key (rowName r2)))

/-- The length of the head run of comparator-equal cloud children
(`cloudEqualNodeCount`, sync.cpp:2126-2128). -/
def clRunLen (key : Nat → Nat) (c : CNode) (cls : List CNode) : Nat :=
  1 + (cls.takeWhile (fun c2 => !decide (key c.name < key c2.name))).length

/-- The cloud list with the head run removed. -/
def clRunRest (key : Nat → Nat) (c : CNode) (cls : List CNode) : List CNode :=
  cls.dropWhile (fun c2 => !decide (key c.name < key c2.name))

/-- Cloud attachment (sync.cpp:2156-2162): an existing row accepts the
cloud value only when it is not already marked `NAME_CONFLICT`. -/
def attachCloud (c : CloudSlot) (r : SyncRow) : SyncRow :=
  if r.cloudNode = CloudSlot.conflict then r else { r with cloudNode := c }

/-- The cloud pairing loop of `recursiveSync` (sync.cpp:2118-2171),
split into the in-place updates of the original rows (first component)
and the rows appended by `childRows.emplace_back` (second component).
Since `relationship` at sync.cpp:2142 is the boolean less-than
`nameCmp(...)` stored in an `int`, it is never negative: a true result
nulls `thisCl`, and otherwise both sides stay in the same row.  When
the row has no sync node, no comparison is made at all and both sides
pair up.  A head run of more than one comparator-equal cloud children
is consumed without emitting or attaching anything
(sync.cpp:2152-2155). -/
def mergeCloudsAux (key : Nat → Nat) : List CNode → List SyncRow → List SyncRow × List SyncRow
  | [], [] => ([], [])
  | [], r :: rows =>
    let out := mergeCloudsAux key [] (rowRunRest key r rows)
    (attachCloud CloudSlot.null r :: (rowRunTail key r rows ++ out.1), out.2)
  | c :: cls, [] =>
    let out := mergeCloudsAux key (clRunRest key c cls) []
    if clRunLen key c cls > 1 then out
    else (out.1, { cloudNode := CloudSlot.node c, syncNode := none, fsNode := none } :: out.2)
  | c :: cls, r :: rows =>
    match r.syncNode with
    | some s =>
      if key c.name < key s.name then
        let out := mergeCloudsAux key (c :: cls) (rowRunRest key r rows)
        (attachCloud CloudSlot.null r :: (rowRunTail key r rows ++ out.1), out.2)
      else
        if clRunLen key c cls > 1 then
          let out := mergeCloudsAux key (clRunRest key c cls) (rowRunRest key r rows)
          (r :: (rowRunTail key r rows ++ out.1), out.2)
        else
          let out := mergeCloudsAux key (clRunRest key c cls) (rowRunRest key r rows)
          (attachCloud (CloudSlot.node c) r :: (rowRunTail key r rows ++ out.1), out.2)
    | none =>
      if clRunLen key c cls > 1 then
        let out := mergeCloudsAux key (clRunRest key c cls) (rowRunRest key r rows)
        (r :: (rowRunTail key r rows ++ out.1), out.2)
      else
        let out := mergeCloudsAux key (clRunRest key c cls) (rowRunRest key r rows)
        (attachCloud (CloudSlot.node c) r :: (rowRunTail key r rows ++ out.1), out.2)
  termination_by cls rows => cls.length + rows.length
  decreasing_by
  all_goals simp [clRunRest, rowRunRest]
  all_goals first
    | (have h1 := dropWhileLenLe
        (fun r2 => !decide (key (rowName r) < key (rowName r2))) rows
       have h2 := dropWhileLenLe
        (fun c2 => !decide (key c.name < key c2.name)) cls
       omega)
    | (have hd := dropWhileLenLe
        (fun r2 => !decide (key (rowName r) < key (rowName r2))) rows; omega)
    | (have hd := dropWhileLenLe
        (fun c2 => !decide (key c.name < key c2.name)) cls; omega)

/-- The merged row list: the original rows, updated in place, followed
by the appended cloud-only rows. -/
def mergeClouds (key : Nat → Nat) (cls : List CNode) (rows : List SyncRow) : List SyncRow :=
  (mergeCloudsAux key cls rows).1 ++ (mergeCloudsAux key cls rows).2

/-- The sort of the scanned filesystem children (sync.cpp:2055) under
the name comparator; `std::sort` guarantees only the arrangement, and
is modelled by an insertion sort for the matching non-strict order. -/
def sortFs (key : Nat → Nat) (fs : List FNode) : List FNode :=
  fs.insertionSort (fun a b => key a.name ≤ key b.name)

/-- The sort of the sync children (sync.cpp:2056). -/
def sortSy (key : Nat → Nat) (sy : List SNode) : List SNode :=
  sy.insertionSort (fun a b => key a.name ≤ key b.name)

/-- The sort of the cloud children by canonical name (sync.cpp:2115). -/
def sortClouds (key : Nat → Nat) (cs : List CNode) : List CNode :=
  cs.insertionSort (fun a b => key a.name ≤ key b.name)

/-- The sort of the rows before the cloud merge (sync.cpp:2116). -/
def sortRows (key : Nat → Nat) (rows : List SyncRow) : List SyncRow :=
  rows.insertionSort (fun a b => key (rowName a) ≤ key (rowName b))

/-- The full row-building phase of `recursiveSync` (sync.cpp:2048-2171)
for one directory: sort the filesystem and sync children and pair them
into rows, then sort the cloud children and the rows and merge the
clouds in. -/
def buildChildRows (key : Nat → Nat) (fsChildren : List FNode) (syncChildren : List SNode)
    (cloudChildren : List CNode) : List SyncRow :=
  mergeClouds key (sortClouds key cloudChildren)
    (sortRows key (buildRows key (sortFs key fsChildren) (sortSy key syncChildren)))

/-- The recursion test of the dispatch loop (sync.cpp:2199-2200):
`row.cloudNode && row.syncNode && row.fsNode &&
row.syncNode->type != FILENODE`.  The dispatch loop evaluates it on the
parent row `row`, not on `childRow`. -/
def recursionTest (row : SyncRow) : Bool :=
  match row.syncNode with
  | none => false
  | some sn => cloudPresent row.cloudNode && row.fsNode.isSome && decide (sn.ntype ≠ NType.file)

/-- What the dispatch loop (sync.cpp:2175-2209) did: the child rows
passed to `syncItem`, the child rows recursed into, and the boolean
result of the loop. -/
structure DispatchOut where
  syncItemRows : List SyncRow
  recurseRows : List SyncRow
  ok : Bool
  deriving Repr, DecidableEq

/-- The dispatch loop of `recursiveSync` (sync.cpp:2175-2209): rows
whose cloud slot is the `NAME_CONFLICT` sentinel are skipped entirely
(sync.cpp:2178-2181); every other row is passed to `syncItem`; then,
when the recursion test on the parent row passes, `recursiveSync` is
invoked on the child row, and a false return aborts the loop.  The
outcome of each recursive call is abstracted by `recOk`. -/
def dispatchRows (parent : SyncRow) (recOk : SyncRow → Bool) : List SyncRow → DispatchOut
  | [] => { syncItemRows := [], recurseRows := [], ok := true }
  | r :: rs =>
    if r.cloudNode = CloudSlot.conflict then dispatchRows parent recOk rs
    else if recursionTest parent then
      if recOk r then
        let out := dispatchRows parent recOk rs
        { syncItemRows := r :: out.syncItemRows, recurseRows := r :: out.recurseRows, ok := out.ok }
      else { syncItemRows := [r], recurseRows := [r], ok := false }
    else
      let out := dispatchRows parent recOk rs
      { syncItemRows := r :: out.syncItemRows, recurseRows := out.recurseRows, ok := out.ok }

/-- The externally visible actions a `syncItem` call can take. -/
inductive Action where
  | startUpload
  | putnodesFolder
  | deleteSyncNode
  | newLocalNode
  | setFsidCall
  | startDownload
  | assertUnreachable
  deriving Repr, DecidableEq

/-- `Sync::syncItem` (sync.cpp:2212-2332) as the list of actions taken
for the row.  The branch bodies that the source leaves empty (all-three
compare, cloud-item-disappeared, local-item-disappeared,
exists-locally-and-remotely, and the remote-only branch at
sync.cpp:2319-2323) emit nothing.  `Action.startDownload` exists so the
absence of any download scheduling is expressible; no branch produces
it. -/
def syncItem (row parentRow : SyncRow) : List Action :=
  match row.syncNode with
  | some sn =>
    match row.fsNode with
    | some fsn =>
      if cloudPresent row.cloudNode then []
      else if sn.syncedCloudNodeHandle = none then
        if fsn.ntype = NType.file then
          if !sn.transferActive && cloudPresent parentRow.cloudNode then [Action.startUpload]
          else []
        else [Action.putnodesFolder]
      else []
    | none =>
      if cloudPresent row.cloudNode then []
      else [Action.deleteSyncNode]
  | none =>
    match row.fsNode with
    | some fsn =>
      if cloudPresent row.cloudNode then []
      else Action.newLocalNode :: (if fsn.fsid ≠ none then [Action.setFsidCall] else [])
    | none =>
      if cloudPresent row.cloudNode then []
      else [Action.assertUnreachable]

/-- Whether a row's filesystem view carries a name with comparator key
`k`. -/
def fsKeyIs (key : Nat → Nat) (k : Nat) (r : SyncRow) : Bool :=
  match r.fsNode with
  | some f => decide (key f.name = k)
  | none => false

/-- The invariant behind C10: every node record carrying the root's
identity is the root and has no fsid, and the fsid index has no entry
for the root. -/
def rootInv (rootNid : Nat) (st : GState) : Prop :=
  (∀ n ∈ st.nodes, n.nid = rootNid → n.isRoot = true ∧ n.fsid = none) ∧
  rootNid ∉ st.index.map Prod.snd

/-- The invariant behind C4, relative to the identity sequence `nids`
of the class's nodes: the records keep their identities, `usedFsIds`
holds exactly the fsids of the `setfsid` calls so far, and a node's
`fsid` field is `UNDEF` exactly when no `setfsid` call has targeted
it. -/
def assignInv (nids : List Nat) (st : GState) : Prop :=
  st.nodes.map LNode.nid = nids ∧
  st.used = (st.calls.map Prod.snd).reverse ∧
  (∀ x ∈ nids, (fsidOf st.nodes x = none ↔ x ∉ st.calls.map Prod.fst))

end SyncSpec

namespace SyncSpec

/-! Supporting lemmas about the reverse-path walk. -/

/-- The loop counters keep `separatorBias + accumulated ≤ index`;
in particular the `size_t` subtractions in the C++ result formula
never underflow. -/
theorem revWalk_counters (sep : Char) :
    ∀ (a b : List Char) (idx bias acc : Nat), bias + acc ≤ idx →
      (revWalk sep a b idx bias acc).bias + (revWalk sep a b idx bias acc).acc ≤
        (revWalk sep a b idx bias acc).idx
  | x :: a, y :: b, idx, bias, acc, h => by
    by_cases hxy : x = y
    · by_cases hsep : x = sep
      · simp only [revWalk, if_pos hxy, if_pos hsep]
        exact revWalk_counters sep a b (idx + 1) (bias + 1) 0 (by omega)
      · simp only [revWalk, if_pos hxy, if_neg hsep]
        exact revWalk_counters sep a b (idx + 1) bias (acc + 1) (by omega)
    · simp only [revWalk, if_neg hxy]
      exact h
  | [], [], idx, bias, acc, h => by simp only [revWalk]; exact h
  | [], _ :: _, idx, bias, acc, h => by simp only [revWalk]; exact h
  | _ :: _, [], idx, bias, acc, h => by simp only [revWalk]; exact h

/-- The score formula is never negative. -/
theorem walkScore_nonneg (sep : Char) (a b : List Char) (idx bias acc : Nat)
    (h : bias + acc ≤ idx) : 0 ≤ walkScore (revWalk sep a b idx bias acc) := by
  have hc := revWalk_counters sep a b idx bias acc h
  unfold walkScore
  split <;> omega

/-- The reverse path match score is never negative. -/
theorem computeReversePathMatchScore_nonneg (sep : Char) (p1 p2 : List Char) :
    0 ≤ computeReversePathMatchScore sep p1 p2 := by
  unfold computeReversePathMatchScore
  split
  · exact le_refl 0
  · exact walkScore_nonneg sep p1.reverse p2.reverse 0 0 0 (by omega)

/-- Strict-positivity lemma, generalised over the loop counters: if the
final score exceeds the partial-score value of the incoming counters,
the separator-free prefixes of the two (reversed) paths agree. -/
theorem revWalk_pos_takeWhile (sep : Char) :
    ∀ (a b : List Char) (idx bias acc : Nat),
      (idx : Int) - bias - acc < walkScore (revWalk sep a b idx bias acc) →
      a.takeWhile (fun c => c ≠ sep) = b.takeWhile (fun c => c ≠ sep)
  | x :: a, y :: b, idx, bias, acc, h => by
    by_cases hxy : x = y
    · subst hxy
      by_cases hsep : x = sep
      · subst hsep
        rw [List.takeWhile_cons_of_neg (by simp), List.takeWhile_cons_of_neg (by simp)]
      · rw [revWalk, if_pos rfl, if_neg hsep] at h
        have hih := revWalk_pos_takeWhile sep a b (idx + 1) bias (acc + 1) (by omega)
        rw [List.takeWhile_cons_of_pos (by simp [hsep]),
          List.takeWhile_cons_of_pos (by simp [hsep]), hih]
    · rw [revWalk, if_neg hxy] at h
      have hval : walkScore ⟨idx, bias, acc, false⟩ = (idx : Int) - bias - acc := rfl
      rw [hval] at h
      exact absurd h (lt_irrefl _)
  | [], [], _, _, _, _ => rfl
  | [], c :: b, idx, bias, acc, h => by
    rw [revWalk] at h
    have hval : walkScore ⟨idx, bias, acc, false⟩ = (idx : Int) - bias - acc := rfl
    rw [hval] at h
    exact absurd h (lt_irrefl _)
  | c :: a, [], idx, bias, acc, h => by
    rw [revWalk] at h
    have hval : walkScore ⟨idx, bias, acc, false⟩ = (idx : Int) - bias - acc := rfl
    rw [hval] at h
    exact absurd h (lt_irrefl _)

/-- Full-score lemma: walking a path against itself consumes everything
and returns `index = length`, `separatorBias = number of separators`. -/
theorem revWalk_self (sep : Char) :
    ∀ (r : List Char) (idx bias acc : Nat),
      (revWalk sep r r idx bias acc).full = true ∧
      (revWalk sep r r idx bias acc).idx = idx + r.length ∧
      (revWalk sep r r idx bias acc).bias = bias + r.countP (fun c => c = sep)
  | [], idx, bias, acc => by simp [revWalk]
  | x :: r, idx, bias, acc => by
    by_cases hsep : x = sep
    · have ih := revWalk_self sep r (idx + 1) (bias + 1) 0
      rw [revWalk, if_pos rfl, if_pos hsep]
      refine ⟨ih.1, ?_, ?_⟩
      · rw [ih.2.1]; simp [List.length_cons]; omega
      · rw [ih.2.2]; simp [List.countP_cons, hsep]; omega
    · have ih := revWalk_self sep r (idx + 1) bias (acc + 1)
      rw [revWalk, if_pos rfl, if_neg hsep]
      refine ⟨ih.1, ?_, ?_⟩
      · rw [ih.2.1]; simp [List.length_cons]; omega
      · rw [ih.2.2]; simp [List.countP_cons, hsep]

/-- C7: for all paths `a` and `b`, the reverse path match score is 0
whenever either path is empty; it is strictly positive only when the
leaf names of `a` and `b` match; and when both paths match in their
entirety (the paths are equal), it equals the total number of matched
characters minus the separator bias. -/
theorem c7_reverse_match_score (sep : Char) (p1 p2 : List Char) :
    ((p1 = [] ∨ p2 = []) → computeReversePathMatchScore sep p1 p2 = 0) ∧
    (0 < computeReversePathMatchScore sep p1 p2 → leafName sep p1 = leafName sep p2) ∧
    (p1 = p2 →
      computeReversePathMatchScore sep p1 p2 = (p1.length : Int) - sepCount sep p1) := by
  refine ⟨?_, ?_, ?_⟩
  · intro h
    unfold computeReversePathMatchScore
    rw [if_pos h]
  · intro hpos
    unfold computeReversePathMatchScore at hpos
    by_cases hemp : p1 = [] ∨ p2 = []
    · rw [if_pos hemp] at hpos
      exact absurd hpos (lt_irrefl 0)
    · rw [if_neg hemp] at hpos
      have h := revWalk_pos_takeWhile sep p1.reverse p2.reverse 0 0 0 (by simpa using hpos)
      unfold leafName
      rw [h]
  · intro h
    subst h
    by_cases hemp : p1 = []
    · subst hemp
      simp [computeReversePathMatchScore, sepCount]
    · unfold computeReversePathMatchScore
      rw [if_neg (by simp [hemp])]
      have hs := revWalk_self sep p1.reverse 0 0 0
      unfold walkScore
      rw [if_pos hs.1, hs.2.1, hs.2.2]
      have hc : p1.reverse.countP (fun c => decide (c = sep)) =
          p1.countP (fun c => decide (c = sep)) := (List.reverse_perm p1).countP_eq _
      simp only [List.length_reverse, Nat.zero_add, hc, sepCount]

/-- Witness for C7 at concrete paths: the empty-path case, a pair with
matching leaf `x` and positive score, and a full self-match. -/
theorem c7_reverse_match_score_witness :
    computeReversePathMatchScore '/' [] ['a'] = 0 ∧
    (0 < computeReversePathMatchScore '/' ['a', '/', 'x'] ['b', '/', 'x'] ∧
      leafName '/' ['a', '/', 'x'] = leafName '/' ['b', '/', 'x']) ∧
    computeReversePathMatchScore '/' ['a', '/', 'b'] ['a', '/', 'b'] =
      ((['a', '/', 'b'] : List Char).length : Int) - sepCount '/' ['a', '/', 'b'] :=
  ⟨(c7_reverse_match_score '/' [] ['a']).1 (Or.inl rfl),
   ⟨by decide, (c7_reverse_match_score '/' ['a', '/', 'x'] ['b', '/', 'x']).2.1 (by decide)⟩,
   (c7_reverse_match_score '/' ['a', '/', 'b'] ['a', '/', 'b']).2.2 rfl⟩

/-- C8: `assignFilesystemIds` returns false when the sync root cannot
be opened, is not a folder, or is a symlink. -/
theorem c8_assignFilesystemIds_root_failure (root : RootAttrs) (localnodesEmpty collectOk : Bool)
    (h : root.openOk = false ∨ root.ntype ≠ NType.folder ∨ root.isSymLink = true) :
    assignFilesystemIds root localnodesEmpty collectOk = false := by
  unfold assignFilesystemIds
  cases hopen : root.openOk <;> rcases h with h | h | h <;> simp_all

/-- Witness for C8: a missing root, a file root, and a symlink root all
make the pass fail. -/
theorem c8_assignFilesystemIds_root_failure_witness :
    assignFilesystemIds ⟨false, NType.folder, false⟩ true true = false ∧
    assignFilesystemIds ⟨true, NType.file, false⟩ true true = false ∧
    assignFilesystemIds ⟨true, NType.folder, true⟩ false false = false :=
  ⟨c8_assignFilesystemIds_root_failure _ _ _ (Or.inl rfl),
   c8_assignFilesystemIds_root_failure _ _ _ (Or.inr (Or.inl (by decide))),
   c8_assignFilesystemIds_root_failure _ _ _ (Or.inr (Or.inr rfl))⟩

/-- C9: the entry of `recursiveSync` reads the sync node's flags before
the null test, so the read dereferences a null pointer exactly when the
row's sync node is missing, and the early-return branch for a missing
sync node is never taken. -/
theorem c9_recursiveSync_entry_null_deref (row : SyncRow) :
    (recursiveSyncEntry row = EntryOutcome.nullDerefOnSyncNode ↔ row.syncNode = none) ∧
    recursiveSyncEntry row ≠ EntryOutcome.returnNoSyncNode := by
  obtain ⟨c, s, f⟩ := row
  cases s with
  | none => simp [recursiveSyncEntry]
  | some sn =>
    refine ⟨?_, ?_⟩ <;> simp only [recursiveSyncEntry] <;> split_ifs <;> simp_all

/-- C5: a folder's aggregated light fingerprint does not depend on the
order in which its children are combined: for any permutation of the
child list, `combinedFingerprint` returns the same fingerprint and
success flag. -/
theorem c5_combinedFingerprint_perm (init : LightFP) (l1 l2 : List LNode) (h : l1.Perm l2) :
    combinedFingerprint init l1 = combinedFingerprint init l2 := by
  unfold combinedFingerprint
  refine @List.Perm.foldl_eq _ _ _ _ _ ⟨?_⟩ h (init, false)
  intro st a b
  by_cases ha : a.ntype = NType.file <;> by_cases hb : b.ntype = NType.file <;>
    simp [ha, hb, hashCombineFingerprint, hashCombine, genLightFingerprint,
      LightFP.mk.injEq, Prod.ext_iff]
  constructor <;> ring

/-- A file child used by the C5 witness. -/
def c5NodeA : LNode :=
  { nid := 1, isRoot := false, ntype := NType.file, size := 10, mtime := 100
    fsid := none, path := [] }

/-- Another file child used by the C5 witness. -/
def c5NodeB : LNode :=
  { nid := 2, isRoot := false, ntype := NType.file, size := 20, mtime := 200
    fsid := none, path := [] }

/-- Witness for C5: swapping two concrete file children leaves the
aggregated fingerprint unchanged. -/
theorem c5_combinedFingerprint_perm_witness :
    combinedFingerprint initLFP [c5NodeA, c5NodeB] =
      combinedFingerprint initLFP [c5NodeB, c5NodeA] :=
  c5_combinedFingerprint_perm initLFP _ _ (List.Perm.swap c5NodeB c5NodeA [])

/-- A successful `localnodebypath` resolution always carries an empty
residual path: the function returns a node only after consuming every
component (sync.cpp:1054-1059). -/
theorem localnodebypath_some_empty_residual :
    ∀ (path : List Nat) (l t : PTree) (rem : List Nat),
      localnodebypath l path = (some t, rem) → rem = []
  | [], l, t, rem => by
    intro h
    unfold localnodebypath at h
    simpa using (congrArg Prod.snd h).symm
  | c :: rest, l, t, rem => by
    intro h
    unfold localnodebypath at h
    cases hc : lookupChild l.children c with
    | some child =>
      rw [hc] at h
      exact localnodebypath_some_empty_residual rest child t rem h
    | none =>
      rw [hc] at h
      cases hs : lookupChild l.schildren c with
      | some child =>
        rw [hs] at h
        exact localnodebypath_some_empty_residual rest child t rem h
      | none =>
        rw [hs] at h
        exact absurd (congrArg Prod.fst h) (by simp)

/-- Every flag request `procscanq` can issue is `here-only`: the
`here-and-below` arm of the conditional at sync.cpp:1856-1857 is dead,
because `localnodebypath` returns a node only on a full resolution. -/
theorem procscanqOne_always_hereOnly (l : PTree) (path : List Nat) (fc : FlagCall)
    (hfc : fc ∈ procscanqOne l path) :
    fc.scan = TreeAction.hereOnly ∧ fc.sync = TreeAction.hereOnly := by
  unfold procscanqOne at hfc
  cases hres : localnodebypath l path with
  | mk ores rem =>
    rw [hres] at hfc
    cases ores with
    | some t =>
      have hrem : rem = [] := localnodebypath_some_empty_residual path l t rem hres
      subst hrem
      simp only [List.mem_singleton] at hfc
      subst hfc
      exact ⟨by simp, by simp⟩
    | none => simp at hfc

/-- The C2 example tree: a leaf node. -/
def c2Leaf : PTree := PTree.mk [] []

/-- The C2 example tree: a root whose only child is named 5. -/
def c2Root : PTree := PTree.mk [(5, c2Leaf)] []

/-- C2 fails on the code at the notification path `[5, 7]` under
`c2Root`: component 5 resolves, so a deepest resolved ancestor exists,
and the residual `[7]` remains; yet `procscanq` raises no flag at all —
in particular no `here-and-below` on the resolved ancestor — because
`localnodebypath` returns null for a partial resolution and `procscanq`
passes null for the `parent` out-parameter and tests only the return
value.  The fully-resolving path `[5]` behaves as the claim states. -/
theorem c2_residual_path_sets_no_flags :
    lookupChild c2Root.children 5 = some c2Leaf ∧
    localnodebypath c2Root [5, 7] = (none, [7]) ∧
    procscanqOne c2Root [5, 7] = [] ∧
    procscanqOne c2Root [5] =
      [{ target := [5], scan := TreeAction.hereOnly, sync := TreeAction.hereOnly }] :=
  ⟨rfl, rfl, rfl, rfl⟩

/-- C3 fails on the code: for a row whose cloud view is present and
whose sync and filesystem views are both absent, `syncItem` takes no
action at all — in particular it schedules no download and creates no
node — because the remote-only branch (sync.cpp:2319-2323) is empty. -/
theorem c3_remote_only_row_takes_no_action (c : CNode) (parentRow : SyncRow) :
    syncItem { cloudNode := CloudSlot.node c, syncNode := none, fsNode := none } parentRow
      = [] := rfl

/-- The C1 parent row: all three views present, sync node a folder. -/
def c1Parent : SyncRow :=
  { cloudNode := CloudSlot.node { name := 0, pending := false }
    syncNode := some { name := 0, ntype := NType.folder, scanAgain := TreeAction.resolved
                       syncAgain := TreeAction.hereOnly, syncedCloudNodeHandle := none
                       transferActive := false }
    fsNode := some { name := 0, ntype := NType.folder, fsid := none } }

/-- A cloud-only child row: its sync and filesystem views are absent. -/
def c1CloudOnlyChild : SyncRow :=
  { cloudNode := CloudSlot.node { name := 1, pending := false }
    syncNode := none, fsNode := none }

/-- A child row with all three views present and a folder sync node. -/
def c1FullChild : SyncRow :=
  { cloudNode := CloudSlot.node { name := 2, pending := false }
    syncNode := some { name := 2, ntype := NType.folder, scanAgain := TreeAction.hereOnly
                       syncAgain := TreeAction.hereOnly, syncedCloudNodeHandle := none
                       transferActive := false }
    fsNode := some { name := 2, ntype := NType.folder, fsid := none } }

/-- The C1 parent row with its cloud view missing. -/
def c1PartialParent : SyncRow :=
  { cloudNode := CloudSlot.null, syncNode := c1Parent.syncNode, fsNode := c1Parent.fsNode }

/-- C1 fails on the code: the recursion test of the dispatch loop
(sync.cpp:2199-2200) evaluates the parent row, not the child row.
Under a parent with all three views and a folder sync node, the loop
recurses into a cloud-only child row whose sync and filesystem views
are absent (and whose missing sync node the entry of `recursiveSync`
then dereferences); conversely, a child row with all three views and a
folder sync node is not recursed into when the parent's cloud view is
missing. -/
theorem c1_recursion_test_reads_parent_row :
    (dispatchRows c1Parent (fun _ => true) [c1CloudOnlyChild]).recurseRows
        = [c1CloudOnlyChild] ∧
    c1CloudOnlyChild.syncNode = none ∧
    c1CloudOnlyChild.fsNode = none ∧
    recursiveSyncEntry c1CloudOnlyChild = EntryOutcome.nullDerefOnSyncNode ∧
    (dispatchRows c1PartialParent (fun _ => true) [c1FullChild]).recurseRows = [] := by
  decide

/-- Every candidate pair of `buildElements` references a non-root node
of the given class. -/
theorem buildElements_nid (sep : Char) (nodes : List LNode) (files : List FsFile)
    (e : Element) (he : e ∈ buildElements sep nodes files) :
    ∃ l ∈ nodes, l.isRoot = false ∧ e.nid = l.nid := by
  unfold buildElements at he
  simp only [List.mem_flatMap] at he
  obtain ⟨l, hl, hmem⟩ := he
  by_cases hr : l.isRoot
  · rw [if_pos hr] at hmem
    simp at hmem
  · rw [if_neg hr] at hmem
    simp only [List.mem_filterMap] at hmem
    obtain ⟨f, _, hsome⟩ := hmem
    refine ⟨l, hl, by simpa using hr, ?_⟩
    by_cases hsc : 0 < (elemOf sep l f).score
    · rw [if_pos hsc] at hsome
      cases hsome
      rfl
    · rw [if_neg hsc] at hsome
      cases hsome

/-- A greedy step on a pair that does not reference the root preserves
the root invariant. -/
theorem greedyStep_rootInv (rootNid : Nat) (st : GState) (e : Element)
    (hnid : e.nid ≠ rootNid) (h : rootInv rootNid st) :
    rootInv rootNid (greedyStep st e) := by
  unfold greedyStep
  by_cases hcond : fsidOf st.nodes e.nid = none ∧ e.fsid ∉ st.used
  · rw [if_pos hcond]
    refine ⟨?_, ?_⟩
    · intro n hn hnnid
      simp only [setfsid, List.mem_map] at hn
      obtain ⟨m, hm, rfl⟩ := hn
      by_cases hme : m.nid = e.nid
      · rw [if_pos hme] at hnnid ⊢
        simp only at hnnid
        exact absurd (hme ▸ hnnid) hnid
      · rw [if_neg hme] at hnnid ⊢
        exact h.1 m hm hnnid
    · intro hmem
      simp only [setfsid, List.map_cons, List.mem_cons] at hmem
      rcases hmem with hmem | hmem
      · exact hnid hmem.symm
      · simp only [List.mem_map] at hmem
        obtain ⟨p, hp, hp2⟩ := hmem
        exact h.2 (List.mem_map.mpr ⟨p, List.mem_of_mem_filter hp, hp2⟩)
  · rw [if_neg hcond]
    exact h

/-- Folding greedy steps over root-free pairs preserves the root
invariant. -/
theorem foldl_greedy_rootInv (rootNid : Nat) :
    ∀ (elems : List Element) (st : GState),
      (∀ e ∈ elems, e.nid ≠ rootNid) → rootInv rootNid st →
      rootInv rootNid (elems.foldl greedyStep st)
  | [], _, _, h => h
  | e :: es, st, hall, h => by
    rw [List.foldl_cons]
    exact foldl_greedy_rootInv rootNid es (greedyStep st e)
      (fun x hx => hall x (List.mem_cons_of_mem e hx))
      (greedyStep_rootInv rootNid st e (hall e (List.mem_cons_self e es)) h)

/-- One fingerprint class of the assignment pass preserves the root
invariant: the root is excluded from the candidate pairs. -/
theorem runClass_rootInv (sep : Char) (rootNid : Nat) (st : GState) (clsNids : List Nat)
    (files : List FsFile) (h : rootInv rootNid st) :
    rootInv rootNid (runClass sep st clsNids files) := by
  unfold runClass
  refine foldl_greedy_rootInv rootNid _ _ ?_ h
  intro e he
  have hmem : e ∈ buildElements sep (st.nodes.filter (fun n => n.nid ∈ clsNids)) files :=
    (List.perm_insertionSort _ _).subset he
  obtain ⟨l, hl, hlroot, hlnid⟩ := buildElements_nid _ _ _ _ hmem
  intro heq
  have hlmem : l ∈ st.nodes := List.mem_of_mem_filter hl
  have := (h.1 l hlmem (by rw [← hlnid, heq])).1
  rw [this] at hlroot
  cases hlroot

/-- The whole class loop of `assignFilesystemIdsImpl` preserves the
root invariant. -/
theorem assignImpl_rootInv (sep : Char) (rootNid : Nat) :
    ∀ (classes : List (List Nat × List FsFile)) (st : GState),
      rootInv rootNid st → rootInv rootNid (assignFilesystemIdsImpl sep classes st)
  | [], _, h => h
  | cls :: rest, st, h => by
    show rootInv rootNid (assignFilesystemIdsImpl sep rest (runClass sep st cls.1 cls.2))
    exact assignImpl_rootInv sep rootNid rest _ (runClass_rootInv sep rootNid st cls.1 cls.2 h)

/-- The root record heads the collected node list. -/
theorem topRec_mem_collectedNodes (t : LTree) : t.topRec ∈ collectedNodes t := by
  cases t with
  | mk r cs =>
    rw [collectedNodes]
    exact List.mem_cons_self _ _

/-- C10: after a full `assignFilesystemIds` run, the root sync node's
fsId is `UNDEF` and the fsid index has no entry for the root: the
collection phase clears every node's fsId and drops it from the index,
and the assignment phase never pairs the root. -/
theorem c10_root_fsid_never_assigned (sep : Char) (t : LTree) (index0 : List (Nat × Nat))
    (fileBuckets : List (LightFP × FsFile))
    (hroot : ∀ n ∈ collectedNodes t, n.nid = t.topRec.nid → n.isRoot = true) :
    fsidOf (assignFsidsPass sep t index0 fileBuckets).nodes t.topRec.nid = none ∧
    t.topRec.nid ∉ (assignFsidsPass sep t index0 fileBuckets).index.map Prod.snd := by
  have hinv0 : rootInv t.topRec.nid
      { nodes := (collectedNodes t).map (fun n => { n with fsid := none })
        used := []
        index := index0.filter (fun e => e.2 ∉ (collectedNodes t).map LNode.nid)
        calls := [] } := by
    refine ⟨?_, ?_⟩
    · intro n hn hnnid
      simp only [List.mem_map] at hn
      obtain ⟨m, hm, rfl⟩ := hn
      exact ⟨hroot m hm hnnid, rfl⟩
    · intro hmem
      simp only [List.mem_map] at hmem
      obtain ⟨p, hp, hp2⟩ := hmem
      have hpred := List.of_mem_filter hp
      rw [hp2] at hpred
      simp only [decide_not, Bool.not_eq_true', decide_eq_false_iff_not, List.mem_map] at hpred
      exact hpred ⟨t.topRec, topRec_mem_collectedNodes t, rfl⟩
  have hfin := assignImpl_rootInv sep t.topRec.nid
    (fpClasses (collectBuckets t) fileBuckets) _ hinv0
  refine ⟨?_, hfin.2⟩
  unfold fsidOf
  cases hf : (assignFsidsPass sep t index0 fileBuckets).nodes.find?
      (fun n => n.nid = t.topRec.nid) with
  | none => rfl
  | some n =>
    have hmem := List.mem_of_find?_eq_some hf
    have hp := List.find?_some hf
    exact (hfin.1 n hmem (by simpa using hp)).2

/-- Witness for C10 at a concrete tree: a root (id 0) with one file
child (id 1), one matching live file, and a pre-existing index entry
for the root. -/
theorem c10_root_fsid_never_assigned_witness :
    (∀ n ∈ collectedNodes (LTree.mk
        { nid := 0, isRoot := true, ntype := NType.folder, size := 0, mtime := 0
          fsid := some 7, path := ['r'] }
        [LTree.mk { nid := 1, isRoot := false, ntype := NType.file, size := 5, mtime := 9
                    fsid := some 8, path := ['r', '/', 'a'] } []]),
      n.nid = 0 → n.isRoot = true) ∧
    fsidOf (assignFsidsPass '/'
      (LTree.mk
        { nid := 0, isRoot := true, ntype := NType.folder, size := 0, mtime := 0
          fsid := some 7, path := ['r'] }
        [LTree.mk { nid := 1, isRoot := false, ntype := NType.file, size := 5, mtime := 9
                    fsid := some 8, path := ['r', '/', 'a'] } []])
      [(7, 0)]
      [(genLightFingerprint 5 9, { fsid := 42, path := ['r', '/', 'a'] })]).nodes 0 = none := by
  constructor
  · decide
  · exact (c10_root_fsid_never_assigned '/' _ [(7, 0)] _ (by decide)).1

/-- Per-node candidate construction: keeping the pairs with positive
score is the same as forming all pairs and dropping the score-0 ones,
because the score is never negative. -/
theorem filterMap_score_filter (sep : Char) (l : LNode) (files : List FsFile) :
    files.filterMap (fun f =>
        if 0 < (elemOf sep l f).score then some (elemOf sep l f) else none) =
      (files.map (fun f => elemOf sep l f)).filter (fun e => decide (e.score ≠ 0)) := by
  induction files with
  | nil => rfl
  | cons f fs ih =>
    have hnn : 0 ≤ (elemOf sep l f).score := computeReversePathMatchScore_nonneg sep l.path f.path
    by_cases hpos : 0 < (elemOf sep l f).score
    · simp only [List.filterMap_cons, List.map_cons, List.filter_cons, if_pos hpos]
      rw [if_pos (by simp; omega), ih]
    · have hz : (elemOf sep l f).score = 0 := le_antisymm (not_lt.mp hpos) hnn
      simp only [List.filterMap_cons, List.map_cons, List.filter_cons, if_neg hpos]
      rw [if_neg (by simp [hz]), ih]

/-- The pair construction of `assignFilesystemIdsImpl`, characterised
with no side condition: the built pair list is the Cartesian product of
the class's non-root cached nodes with its live files, filtered of its
score-0 pairs.  The sync root, although collected into its fingerprint
class by `collectAllLocalNodes` (sync.cpp:244-248), never contributes a
pair (sync.cpp:355). -/
theorem buildElements_eq_allPairs_filter (sep : Char) (nodes : List LNode)
    (files : List FsFile) :
    buildElements sep nodes files =
      (allPairs sep (nodes.filter (fun l => !l.isRoot)) files).filter
        (fun e => decide (e.score ≠ 0)) := by
  unfold buildElements allPairs
  induction nodes with
  | nil => rfl
  | cons l ns ih =>
    by_cases hr : l.isRoot
    · rw [List.flatMap_cons, if_pos hr, List.filter_cons_of_neg (by simp [hr])]
      simpa using ih
    · rw [List.flatMap_cons, if_neg hr, filterMap_score_filter sep l files, ih,
        List.filter_cons_of_pos (by simp [hr]), List.flatMap_cons, List.filter_append]

/-- Updating the `fsid` field of the records matching one identity
commutes with lookup by identity. -/
theorem find?_map_setfsid (enid efsid x : Nat) (ns : List LNode) :
    (ns.map (fun n => if n.nid = enid then { n with fsid := some efsid } else n)).find?
        (fun n => decide (n.nid = x)) =
      (ns.find? (fun n => decide (n.nid = x))).map
        (fun n => if n.nid = enid then { n with fsid := some efsid } else n) := by
  induction ns with
  | nil => rfl
  | cons n ns ih =>
    have hnid : ((if n.nid = enid then { n with fsid := some efsid } else n) : LNode).nid
        = n.nid := by split <;> rfl
    by_cases hx : n.nid = x
    · rw [List.map_cons, List.find?_cons_of_pos _ (by simp only [hnid]; simp [hx]),
        List.find?_cons_of_pos _ (by simp [hx])]
      rfl
    · rw [List.map_cons, List.find?_cons_of_neg _ (by simp only [hnid]; simp [hx]),
        List.find?_cons_of_neg _ (by simp [hx]), ih]

/-- The greedy step preserves the C4 invariant. -/
theorem greedyStep_assignInv (nids : List Nat) (st : GState) (e : Element)
    (h : assignInv nids st) : assignInv nids (greedyStep st e) := by
  obtain ⟨h1, h2, h3⟩ := h
  unfold greedyStep
  by_cases hcond : fsidOf st.nodes e.nid = none ∧ e.fsid ∉ st.used
  · rw [if_pos hcond]
    refine ⟨?_, ?_, ?_⟩
    · simp only [setfsid, List.map_map]
      rw [← h1]
      refine List.map_congr_left (fun n _ => ?_)
      simp only [Function.comp_apply]
      split <;> rfl
    · simp only [setfsid, List.map_append]
      rw [List.reverse_append, ← h2]
      rfl
    · intro x hx
      simp only [setfsid, List.map_append, List.mem_append]
      by_cases hxe : x = e.nid
      · have hupd : fsidOf (st.nodes.map
            (fun n => if n.nid = e.nid then { n with fsid := some e.fsid } else n)) x
            = some e.fsid := by
          have hsome : (st.nodes.find? (fun n => decide (n.nid = x))).isSome := by
            rw [List.find?_isSome]
            rw [← h1] at hx
            obtain ⟨n, hn, hnx⟩ := List.mem_map.mp hx
            exact ⟨n, hn, by simp [hnx]⟩
          obtain ⟨n, hn⟩ := Option.isSome_iff_exists.mp hsome
          have hnx : n.nid = x := by simpa using List.find?_some hn
          unfold fsidOf
          rw [find?_map_setfsid, hn]
          simp only [Option.map]
          rw [if_pos (by rw [hnx, hxe])]
        refine iff_of_false (by rw [hupd]; simp) (by simp [hxe])
      · have hfs : fsidOf (st.nodes.map
            (fun n => if n.nid = e.nid then { n with fsid := some e.fsid } else n)) x =
            fsidOf st.nodes x := by
          unfold fsidOf
          rw [find?_map_setfsid]
          cases hf : st.nodes.find? (fun n => decide (n.nid = x)) with
          | none => rfl
          | some n =>
            have hnx : n.nid = x := by simpa using List.find?_some hf
            simp only [Option.map]
            rw [if_neg (by rw [hnx]; exact hxe)]
        rw [hfs, h3 x hx]
        simp [hxe]
  · rw [if_neg hcond]
    exact ⟨h1, h2, h3⟩

/-- Folding greedy steps preserves the C4 invariant. -/
theorem foldl_greedy_assignInv (nids : List Nat) :
    ∀ (es : List Element) (st : GState),
      assignInv nids st → assignInv nids (es.foldl greedyStep st)
  | [], _, h => h
  | e :: es, st, h => by
    rw [List.foldl_cons]
    exact foldl_greedy_assignInv nids es (greedyStep st e)
      (greedyStep_assignInv nids st e h)

/-- The C4 invariant holds at the start of a class whose nodes are all
unassigned. -/
theorem assignInv_init (nodes : List LNode) (idx0 : List (Nat × Nat))
    (hclean : ∀ l ∈ nodes, l.fsid = none) :
    assignInv (nodes.map LNode.nid) (classState0 nodes idx0) := by
  refine ⟨rfl, rfl, ?_⟩
  intro x _
  refine iff_of_true ?_ (List.not_mem_nil x)
  unfold fsidOf classState0
  cases hf : nodes.find? (fun n => decide (n.nid = x)) with
  | none => rfl
  | some n => exact hclean n (List.mem_of_find?_eq_some hf)

/-- One greedy iteration, seen through `classStateAt`. -/
theorem classStateAt_succ (sep : Char) (nodes : List LNode) (files : List FsFile)
    (idx0 : List (Nat × Nat)) (k : Nat) (hk : k < (classElems sep nodes files).length) :
    classStateAt sep nodes files idx0 (k + 1) =
      greedyStep (classStateAt sep nodes files idx0 k)
        ((classElems sep nodes files).get ⟨k, hk⟩) := by
  unfold classStateAt
  rw [List.take_succ]
  have : (classElems sep nodes files)[k]?.toList = [(classElems sep nodes files).get ⟨k, hk⟩] := by
    rw [List.getElem?_eq_getElem hk]
    rfl
  rw [this, List.foldl_append]
  rfl

/-- C4 as amended: for one fingerprint class whose nodes are all
unassigned at the start, (1) the candidate pairs are exactly the pairs
of the class's cached nodes other than the sync root with its live
files, with the score-0 pairs dropped (the root, although collected
into its class, is excluded from pairing at sync.cpp:355), (2) the
processed list is a permutation of them sorted by descending score,
and (3) the greedy pass acts on the pair at position `k` exactly when
no earlier `setfsid` call targeted its node and no earlier call
consumed its fsid — calling `setfsid` on the node in that case, and
leaving the state untouched otherwise. -/
theorem c4_fsid_assignment_greedy_nonroot (sep : Char) (nodes : List LNode)
    (files : List FsFile) (idx0 : List (Nat × Nat))
    (hclean : ∀ l ∈ nodes, l.fsid = none) :
    buildElements sep nodes files =
      (allPairs sep (nodes.filter (fun l => !l.isRoot)) files).filter
        (fun e => decide (e.score ≠ 0)) ∧
    (classElems sep nodes files).Perm (buildElements sep nodes files) ∧
    (classElems sep nodes files).Pairwise (fun a b => b.score ≤ a.score) ∧
    (∀ k, ∀ hk : k < (classElems sep nodes files).length,
      ((classStateAt sep nodes files idx0 (k + 1)).calls =
          (classStateAt sep nodes files idx0 k).calls ++
            [(((classElems sep nodes files).get ⟨k, hk⟩).nid,
              ((classElems sep nodes files).get ⟨k, hk⟩).fsid)] ↔
        (((classElems sep nodes files).get ⟨k, hk⟩).nid ∉
            ((classStateAt sep nodes files idx0 k).calls.map Prod.fst) ∧
          ((classElems sep nodes files).get ⟨k, hk⟩).fsid ∉
            ((classStateAt sep nodes files idx0 k).calls.map Prod.snd))) ∧
      ((((classElems sep nodes files).get ⟨k, hk⟩).nid ∈
            ((classStateAt sep nodes files idx0 k).calls.map Prod.fst) ∨
          ((classElems sep nodes files).get ⟨k, hk⟩).fsid ∈
            ((classStateAt sep nodes files idx0 k).calls.map Prod.snd)) →
        classStateAt sep nodes files idx0 (k + 1) = classStateAt sep nodes files idx0 k)) := by
  refine ⟨buildElements_eq_allPairs_filter sep nodes files,
    List.perm_insertionSort _ _, ?_, ?_⟩
  · unfold classElems sortElements
    haveI : IsTotal Element (fun a b => b.score ≤ a.score) :=
      ⟨fun a b => le_total b.score a.score⟩
    haveI : IsTrans Element (fun a b => b.score ≤ a.score) :=
      ⟨fun _ _ _ hab hbc => le_trans hbc hab⟩
    exact List.sorted_insertionSort _ _
  · intro k hk
    have hinv : assignInv (nodes.map LNode.nid) (classStateAt sep nodes files idx0 k) :=
      foldl_greedy_assignInv (nodes.map LNode.nid)
        ((classElems sep nodes files).take k) (classState0 nodes idx0)
        (assignInv_init nodes idx0 hclean)
    obtain ⟨hi1, hi2, hi3⟩ := hinv
    have hemem : ((classElems sep nodes files).get ⟨k, hk⟩).nid ∈ nodes.map LNode.nid := by
      have h1 : (classElems sep nodes files).get ⟨k, hk⟩ ∈ classElems sep nodes files :=
        List.get_mem _ k hk
      have h2 : (classElems sep nodes files).get ⟨k, hk⟩ ∈ buildElements sep nodes files :=
        (List.perm_insertionSort _ _).subset h1
      obtain ⟨l, hl, _, hlnid⟩ := buildElements_nid sep nodes files _ h2
      exact hlnid ▸ List.mem_map.mpr ⟨l, hl, rfl⟩
    have hecond : (fsidOf (classStateAt sep nodes files idx0 k).nodes
          ((classElems sep nodes files).get ⟨k, hk⟩).nid = none ∧
        ((classElems sep nodes files).get ⟨k, hk⟩).fsid ∉
          (classStateAt sep nodes files idx0 k).used) ↔
        (((classElems sep nodes files).get ⟨k, hk⟩).nid ∉
            ((classStateAt sep nodes files idx0 k).calls.map Prod.fst) ∧
          ((classElems sep nodes files).get ⟨k, hk⟩).fsid ∉
            ((classStateAt sep nodes files idx0 k).calls.map Prod.snd)) := by
      constructor
      · intro ⟨ha, hb⟩
        refine ⟨(hi3 _ hemem).mp ha, ?_⟩
        rw [hi2] at hb
        intro hmem
        exact hb (List.mem_reverse.mpr hmem)
      · intro ⟨ha, hb⟩
        refine ⟨(hi3 _ hemem).mpr ha, ?_⟩
        rw [hi2]
        intro hmem
        exact hb (List.mem_reverse.mp hmem)
    rw [classStateAt_succ sep nodes files idx0 k hk]
    constructor
    · by_cases hop : fsidOf (classStateAt sep nodes files idx0 k).nodes
          ((classElems sep nodes files).get ⟨k, hk⟩).nid = none ∧
          ((classElems sep nodes files).get ⟨k, hk⟩).fsid ∉
            (classStateAt sep nodes files idx0 k).used
      · refine iff_of_true ?_ (hecond.mp hop)
        unfold greedyStep
        rw [if_pos hop]
        simp [setfsid]
      · refine iff_of_false ?_ (fun hdecl => hop (hecond.mpr hdecl))
        unfold greedyStep
        rw [if_neg hop]
        intro hceq
        have := congrArg List.length hceq
        simp at this
    · intro hdecl
      have hop : ¬(fsidOf (classStateAt sep nodes files idx0 k).nodes
          ((classElems sep nodes files).get ⟨k, hk⟩).nid = none ∧
          ((classElems sep nodes files).get ⟨k, hk⟩).fsid ∉
            (classStateAt sep nodes files idx0 k).used) := by
        intro hop
        obtain ⟨ha, hb⟩ := hecond.mp hop
        rcases hdecl with hdecl | hdecl
        · exact ha hdecl
        · exact hb hdecl
      unfold greedyStep
      rw [if_neg hop]

/-- On a sorted list whose values are at least `v`, the head run of
values not above `v` is exactly the set of values equal to `v`. -/
theorem takeWhile_eq_filter_sorted {α : Type} (g : α → Nat) (v : Nat) :
    ∀ l : List α, l.Pairwise (fun a b => g a ≤ g b) → (∀ y ∈ l, v ≤ g y) →
      l.takeWhile (fun y => !decide (v < g y)) = l.filter (fun y => decide (g y = v))
  | [], _, _ => rfl
  | a :: l, hs, hv => by
    have hge : v ≤ g a := hv a (List.mem_cons_self a l)
    by_cases ha : g a = v
    · rw [List.takeWhile_cons_of_pos (by simp [ha]),
        List.filter_cons_of_pos (by simp [ha]),
        takeWhile_eq_filter_sorted g v l (List.Pairwise.sublist (List.sublist_cons_self a l) hs)
          (fun y hy => le_trans hge ((List.pairwise_cons.mp hs).1 y hy))]
    · have hgt : v < g a := lt_of_le_of_ne hge (fun h => ha h.symm)
      rw [List.takeWhile_cons_of_neg (by simp [hgt])]
      have hfil : l.filter (fun y => decide (g y = v)) = [] := by
        rw [List.filter_eq_nil_iff]
        intro y hy
        have := (List.pairwise_cons.mp hs).1 y hy
        simp only [decide_eq_true_eq]
        omega
      rw [List.filter_cons_of_neg (by simp [ha]), hfil]

/-- On a sorted list, every element after the head run of values not
above `v` is strictly above `v`. -/
theorem dropWhile_gt_sorted {α : Type} (g : α → Nat) (v : Nat) :
    ∀ l : List α, l.Pairwise (fun a b => g a ≤ g b) →
      ∀ y ∈ l.dropWhile (fun y => !decide (v < g y)), v < g y
  | [], _, _, hy => by simp at hy
  | a :: l, hs, y, hy => by
    by_cases ha : v < g a
    · rw [List.dropWhile_cons_of_neg (by simp [ha])] at hy
      rcases List.mem_cons.mp hy with rfl | hy
      · exact ha
      · exact lt_of_lt_of_le ha ((List.pairwise_cons.mp hs).1 y hy)
    · rw [List.dropWhile_cons_of_pos (by simp [ha])] at hy
      exact dropWhile_gt_sorted g v l
        (List.Pairwise.sublist (List.sublist_cons_self a l) hs) y hy

/-- Multiplicity bookkeeping for the head run of a sorted filesystem
list: how many entries with comparator key `k` sit in the whole list,
in the head run, and in the rest. -/
theorem fsRun_facts (key : Nat → Nat) (k : Nat) (f : FNode) (fss : List FNode)
    (hs : (f :: fss).Pairwise (fun a b => key a.name ≤ key b.name)) :
    ((f :: fss).filter (fun y => decide (key y.name = k))).length =
      (if key f.name = k then 1 else 0) +
      ((fsRunTail key f fss).filter (fun y => decide (key y.name = k))).length +
      ((fsRunRest key f fss).filter (fun y => decide (key y.name = k))).length ∧
    (key f.name = k →
      ((fsRunTail key f fss).filter (fun y => decide (key y.name = k))).length =
        (fsRunTail key f fss).length) ∧
    (key f.name = k →
      ((fsRunRest key f fss).filter (fun y => decide (key y.name = k))).length = 0) ∧
    (key f.name ≠ k →
      ((fsRunTail key f fss).filter (fun y => decide (key y.name = k))).length = 0) := by
  have hsort' : fss.Pairwise (fun a b => key a.name ≤ key b.name) :=
    List.Pairwise.sublist (List.sublist_cons_self f fss) hs
  have hge : ∀ y ∈ fss, key f.name ≤ key y.name := (List.pairwise_cons.mp hs).1
  have htw := takeWhile_eq_filter_sorted (fun y : FNode => key y.name) (key f.name) fss
    hsort' hge
  have hgtr := dropWhile_gt_sorted (fun y : FNode => key y.name) (key f.name) fss hsort'
  have htail_key : ∀ y ∈ fsRunTail key f fss, key y.name = key f.name := by
    intro y hy
    unfold fsRunTail at hy
    rw [htw] at hy
    simpa using List.of_mem_filter hy
  have hsplit : fss.filter (fun y => decide (key y.name = k)) =
      (fsRunTail key f fss).filter (fun y => decide (key y.name = k)) ++
      (fsRunRest key f fss).filter (fun y => decide (key y.name = k)) := by
    rw [← List.filter_append]
    unfold fsRunTail fsRunRest
    rw [List.takeWhile_append_dropWhile]
  refine ⟨?_, ?_, ?_, ?_⟩
  · rw [List.filter_cons]
    by_cases hk : key f.name = k
    · rw [if_pos (by simp [hk]), if_pos hk]
      simp only [List.length_cons, hsplit, List.length_append]
      omega
    · rw [if_neg (by simp [hk]), if_neg hk]
      simp only [hsplit, List.length_append]
      omega
  · intro hk
    congr 1
    rw [List.filter_eq_self]
    intro y hy
    simp [htail_key y hy, hk]
  · intro hk
    have : (fsRunRest key f fss).filter (fun y => decide (key y.name = k)) = [] := by
      rw [List.filter_eq_nil_iff]
      intro y hy
      have hgy : key f.name < key y.name := hgtr y hy
      simp only [decide_eq_true_eq]
      omega
    rw [this]
    rfl
  · intro hk
    have : (fsRunTail key f fss).filter (fun y => decide (key y.name = k)) = [] := by
      rw [List.filter_eq_nil_iff]
      intro y hy
      simp [htail_key y hy, hk]
    rw [this]
    rfl

/-- The count-and-conflict facts for `buildRows` on a sorted
filesystem list: the rows whose filesystem view has comparator key `k`
number exactly one when `k` occurs and zero otherwise, and when `k`
occurs more than once each such row carries the `NAME_CONFLICT`
sentinel. -/
theorem buildRows_dup_count (key : Nat → Nat) (k : Nat) :
    ∀ (fs : List FNode) (sy : List SNode),
      fs.Pairwise (fun a b => key a.name ≤ key b.name) →
      ((buildRows key fs sy).filter (fsKeyIs key k)).length =
        min ((fs.filter (fun f => decide (key f.name = k))).length) 1 ∧
      (2 ≤ (fs.filter (fun f => decide (key f.name = k))).length →
        ∀ r ∈ buildRows key fs sy, fsKeyIs key k r = true →
          r.cloudNode = CloudSlot.conflict) := by
  intro fs sy
  induction fs, sy using buildRows.induct key with
  | case1 =>
    intro _
    exact ⟨by rw [buildRows]; rfl, by intro h; simp at h⟩
  | case2 s sys ih =>
    intro _
    rw [buildRows]
    obtain ⟨ihc, ihk⟩ := ih List.Pairwise.nil
    refine ⟨?_, ?_⟩
    · rw [List.filter_cons_of_neg (by simp [fsKeyIs])]
      exact ihc
    · intro h2
      simp at h2
  | case3 f fss ih =>
    intro hs
    rw [buildRows]
    have hrs : (fsRunRest key f fss).Pairwise (fun a b => key a.name ≤ key b.name) :=
      List.Pairwise.sublist
        ((List.dropWhile_sublist _).trans (List.sublist_cons_self f fss)) hs
    obtain ⟨ihc, ihk⟩ := ih hrs
    obtain ⟨hF1, hF2, hF3, hF4⟩ := fsRun_facts key k f fss hs
    by_cases hk : key f.name = k
    · refine ⟨?_, ?_⟩
      · rw [List.filter_cons_of_pos (by simp [fsKeyIs, hk]), List.length_cons, ihc,
          hF3 hk]
        rw [if_pos hk] at hF1
        omega
      · intro h2 r hr hkey
        rcases List.mem_cons.mp hr with rfl | hr
        · show fsRowCloud key f fss = CloudSlot.conflict
          unfold fsRowCloud
          rw [if_pos (by rw [if_pos hk] at hF1; rw [hF2 hk] at hF1; omega)]
        · have hnil : (buildRows key (fsRunRest key f fss) []).filter (fsKeyIs key k)
              = [] := by
            rw [← List.length_eq_zero]
            rw [ihc, hF3 hk]
            rfl
          have hmem := List.mem_filter.mpr ⟨hr, hkey⟩
          rw [hnil] at hmem
          exact absurd hmem (List.not_mem_nil r)
    · refine ⟨?_, ?_⟩
      · rw [List.filter_cons_of_neg (by simp [fsKeyIs, hk]), ihc]
        rw [if_neg hk] at hF1
        rw [hF4 hk] at hF1
        omega
      · intro h2 r hr hkey
        rcases List.mem_cons.mp hr with rfl | hr
        · simp [fsKeyIs, hk] at hkey
        · refine ihk ?_ r hr hkey
          rw [if_neg hk] at hF1
          rw [hF4 hk] at hF1
          omega
  | case4 f fss s sys hlt ih =>
    intro hs
    rw [buildRows, if_pos hlt]
    have hrs : (fsRunRest key f fss).Pairwise (fun a b => key a.name ≤ key b.name) :=
      List.Pairwise.sublist
        ((List.dropWhile_sublist _).trans (List.sublist_cons_self f fss)) hs
    obtain ⟨ihc, ihk⟩ := ih hrs
    obtain ⟨hF1, hF2, hF3, hF4⟩ := fsRun_facts key k f fss hs
    by_cases hk : key f.name = k
    · refine ⟨?_, ?_⟩
      · rw [List.filter_cons_of_pos (by simp [fsKeyIs, hk]), List.length_cons, ihc,
          hF3 hk]
        rw [if_pos hk] at hF1
        omega
      · intro h2 r hr hkey
        rcases List.mem_cons.mp hr with rfl | hr
        · show fsRowCloud key f fss = CloudSlot.conflict
          unfold fsRowCloud
          rw [if_pos (by rw [if_pos hk] at hF1; rw [hF2 hk] at hF1; omega)]
        · have hnil : (buildRows key (fsRunRest key f fss) (s :: sys)).filter
              (fsKeyIs key k) = [] := by
            rw [← List.length_eq_zero]
            rw [ihc, hF3 hk]
            rfl
          have hmem := List.mem_filter.mpr ⟨hr, hkey⟩
          rw [hnil] at hmem
          exact absurd hmem (List.not_mem_nil r)
    · refine ⟨?_, ?_⟩
      · rw [List.filter_cons_of_neg (by simp [fsKeyIs, hk]), ihc]
        rw [if_neg hk] at hF1
        rw [hF4 hk] at hF1
        omega
      · intro h2 r hr hkey
        rcases List.mem_cons.mp hr with rfl | hr
        · simp [fsKeyIs, hk] at hkey
        · refine ihk ?_ r hr hkey
          rw [if_neg hk] at hF1
          rw [hF4 hk] at hF1
          omega
  | case5 f fss s sys hlt hgt ih =>
    intro hs
    rw [buildRows, if_neg hlt, if_pos hgt]
    obtain ⟨ihc, ihk⟩ := ih hs
    refine ⟨?_, ?_⟩
    · rw [List.filter_cons_of_neg (by simp [fsKeyIs])]
      exact ihc
    · intro h2 r hr hkey
      rcases List.mem_cons.mp hr with rfl | hr
      · simp [fsKeyIs] at hkey
      · exact ihk h2 r hr hkey
  | case6 f fss s sys hlt hgt ih =>
    intro hs
    rw [buildRows, if_neg hlt, if_neg hgt]
    have hrs : (fsRunRest key f fss).Pairwise (fun a b => key a.name ≤ key b.name) :=
      List.Pairwise.sublist
        ((List.dropWhile_sublist _).trans (List.sublist_cons_self f fss)) hs
    obtain ⟨ihc, ihk⟩ := ih hrs
    obtain ⟨hF1, hF2, hF3, hF4⟩ := fsRun_facts key k f fss hs
    by_cases hk : key f.name = k
    · refine ⟨?_, ?_⟩
      · rw [List.filter_cons_of_pos (by simp [fsKeyIs, hk]), List.length_cons, ihc,
          hF3 hk]
        rw [if_pos hk] at hF1
        omega
      · intro h2 r hr hkey
        rcases List.mem_cons.mp hr with rfl | hr
        · show fsRowCloud key f fss = CloudSlot.conflict
          unfold fsRowCloud
          rw [if_pos (by rw [if_pos hk] at hF1; rw [hF2 hk] at hF1; omega)]
        · have hnil : (buildRows key (fsRunRest key f fss) (syRunRest key s sys)).filter
              (fsKeyIs key k) = [] := by
            rw [← List.length_eq_zero]
            rw [ihc, hF3 hk]
            rfl
          have hmem := List.mem_filter.mpr ⟨hr, hkey⟩
          rw [hnil] at hmem
          exact absurd hmem (List.not_mem_nil r)
    · refine ⟨?_, ?_⟩
      · rw [List.filter_cons_of_neg (by simp [fsKeyIs, hk]), ihc]
        rw [if_neg hk] at hF1
        rw [hF4 hk] at hF1
        omega
      · intro h2 r hr hkey
        rcases List.mem_cons.mp hr with rfl | hr
        · simp [fsKeyIs, hk] at hkey
        · refine ihk ?_ r hr hkey
          rw [if_neg hk] at hF1
          rw [hF4 hk] at hF1
          omega

/-- `attachCloud` changes only the cloud slot, and changes nothing at
all on a row already marked `NAME_CONFLICT`. -/
theorem attachCloud_rel (c : CloudSlot) (r : SyncRow) :
    (attachCloud c r).syncNode = r.syncNode ∧ (attachCloud c r).fsNode = r.fsNode ∧
      (r.cloudNode = CloudSlot.conflict → attachCloud c r = r) := by
  unfold attachCloud
  by_cases h : r.cloudNode = CloudSlot.conflict
  · rw [if_pos h]
    exact ⟨rfl, rfl, fun _ => rfl⟩
  · rw [if_neg h]
    exact ⟨rfl, rfl, fun hc => absurd hc h⟩

/-- The cloud merge updates the original rows in place — preserving
their sync and fs views and never touching a row already marked
`NAME_CONFLICT` — and every appended row has no fs view. -/
theorem mergeCloudsAux_facts (key : Nat → Nat) :
    ∀ (cls : List CNode) (rows : List SyncRow),
      List.Forall₂ (fun r2 r => r2.syncNode = r.syncNode ∧ r2.fsNode = r.fsNode ∧
          (r.cloudNode = CloudSlot.conflict → r2 = r))
        (mergeCloudsAux key cls rows).1 rows ∧
      (∀ r2 ∈ (mergeCloudsAux key cls rows).2, r2.fsNode = none) := by
  have hrefl : ∀ l : List SyncRow,
      List.Forall₂ (fun r2 r => r2.syncNode = r.syncNode ∧ r2.fsNode = r.fsNode ∧
        (r.cloudNode = CloudSlot.conflict → r2 = r)) l l :=
    fun l => List.forall₂_same.mpr (fun x _ => ⟨rfl, rfl, fun _ => rfl⟩)
  intro cls rows
  induction cls, rows using mergeCloudsAux.induct key with
  | case1 =>
    rw [mergeCloudsAux]
    exact ⟨List.Forall₂.nil, by intro r2 h; simp at h⟩
  | case2 r rows ih =>
    simp only [mergeCloudsAux]
    refine ⟨?_, ih.2⟩
    refine List.Forall₂.cons (attachCloud_rel CloudSlot.null r) ?_
    have hF := List.rel_append (hrefl (rowRunTail key r rows)) ih.1
    simp only [rowRunTail, rowRunRest] at hF ⊢
    rwa [List.takeWhile_append_dropWhile] at hF
  | case3 c cls hlen ih =>
    simp only [mergeCloudsAux]
    rw [if_pos hlen]
    exact ih
  | case4 c cls hlen ih =>
    simp only [mergeCloudsAux]
    rw [if_neg hlen]
    refine ⟨ih.1, ?_⟩
    intro r2 h2
    rcases List.mem_cons.mp h2 with rfl | h2
    · rfl
    · exact ih.2 r2 h2
  | case5 c cls r rows s hsn hlt ih =>
    simp only [mergeCloudsAux, hsn]
    rw [if_pos hlt]
    refine ⟨?_, ih.2⟩
    refine List.Forall₂.cons (attachCloud_rel CloudSlot.null r) ?_
    have hF := List.rel_append (hrefl (rowRunTail key r rows)) ih.1
    simp only [rowRunTail, rowRunRest] at hF ⊢
    rwa [List.takeWhile_append_dropWhile] at hF
  | case6 c cls r rows s hsn hlt hlen ih =>
    simp only [mergeCloudsAux, hsn]
    rw [if_neg hlt, if_pos hlen]
    refine ⟨?_, ih.2⟩
    refine List.Forall₂.cons ⟨rfl, rfl, fun _ => rfl⟩ ?_
    have hF := List.rel_append (hrefl (rowRunTail key r rows)) ih.1
    simp only [rowRunTail, rowRunRest] at hF ⊢
    rwa [List.takeWhile_append_dropWhile] at hF
  | case7 c cls r rows s hsn hlt hlen ih =>
    simp only [mergeCloudsAux, hsn]
    rw [if_neg hlt, if_neg hlen]
    refine ⟨?_, ih.2⟩
    refine List.Forall₂.cons (attachCloud_rel (CloudSlot.node c) r) ?_
    have hF := List.rel_append (hrefl (rowRunTail key r rows)) ih.1
    simp only [rowRunTail, rowRunRest] at hF ⊢
    rwa [List.takeWhile_append_dropWhile] at hF
  | case8 c cls r rows hsn hlen ih =>
    simp only [mergeCloudsAux, hsn]
    rw [if_pos hlen]
    refine ⟨?_, ih.2⟩
    refine List.Forall₂.cons ⟨rfl, rfl, fun _ => rfl⟩ ?_
    have hF := List.rel_append (hrefl (rowRunTail key r rows)) ih.1
    simp only [rowRunTail, rowRunRest] at hF ⊢
    rwa [List.takeWhile_append_dropWhile] at hF
  | case9 c cls r rows hsn hlen ih =>
    simp only [mergeCloudsAux, hsn]
    rw [if_neg hlen]
    refine ⟨?_, ih.2⟩
    refine List.Forall₂.cons (attachCloud_rel (CloudSlot.node c) r) ?_
    have hF := List.rel_append (hrefl (rowRunTail key r rows)) ih.1
    simp only [rowRunTail, rowRunRest] at hF ⊢
    rwa [List.takeWhile_append_dropWhile] at hF

/-- Rows related by the merge correspondence carry the same
filesystem view, so they pass the `fsKeyIs` filter together. -/
theorem forall2_fsKeyIs_filter_len (key : Nat → Nat) (k : Nat) :
    ∀ {l1 l2 : List SyncRow},
      List.Forall₂ (fun r2 r => r2.syncNode = r.syncNode ∧ r2.fsNode = r.fsNode ∧
        (r.cloudNode = CloudSlot.conflict → r2 = r)) l1 l2 →
      (l1.filter (fsKeyIs key k)).length = (l2.filter (fsKeyIs key k)).length := by
  intro l1 l2 h
  induction h with
  | nil => rfl
  | cons hr ht ih =>
    rename_i a b l1 l2
    have hab : fsKeyIs key k a = fsKeyIs key k b := by
      unfold fsKeyIs
      rw [hr.2.1]
    rw [List.filter_cons, List.filter_cons, hab]
    by_cases hb : fsKeyIs key k b = true
    · rw [if_pos hb, if_pos hb]
      simp only [List.length_cons, ih]
    · rw [if_neg hb, if_neg hb]
      exact ih

/-- Each row on the left of a `Forall₂` has a partner on the right. -/
theorem forall2_exists_partner {α β : Type} {R : α → β → Prop} :
    ∀ {l1 : List α} {l2 : List β}, List.Forall₂ R l1 l2 → ∀ a ∈ l1, ∃ b ∈ l2, R a b := by
  intro l1 l2 h
  induction h with
  | nil =>
    intro a ha
    simp at ha
  | cons hr ht ih =>
    intro a ha
    rcases List.mem_cons.mp ha with rfl | ha
    · exact ⟨_, List.mem_cons_self _ _, hr⟩
    · obtain ⟨b, hb, hrb⟩ := ih a ha
      exact ⟨b, List.mem_cons_of_mem _ hb, hrb⟩

/-- Every row passed to `syncItem` by the dispatch loop is one of the
input rows and is not marked `NAME_CONFLICT`. -/
theorem dispatchRows_syncItem_mem (parent : SyncRow) (recOk : SyncRow → Bool) :
    ∀ (rows : List SyncRow) (r : SyncRow),
      r ∈ (dispatchRows parent recOk rows).syncItemRows →
      r ∈ rows ∧ r.cloudNode ≠ CloudSlot.conflict
  | [], r, hr => by simp [dispatchRows] at hr
  | r0 :: rs, r, hr => by
    rw [dispatchRows] at hr
    by_cases hc : r0.cloudNode = CloudSlot.conflict
    · rw [if_pos hc] at hr
      obtain ⟨hmem, hconf⟩ := dispatchRows_syncItem_mem parent recOk rs r hr
      exact ⟨List.mem_cons_of_mem r0 hmem, hconf⟩
    · rw [if_neg hc] at hr
      by_cases hg : recursionTest parent
      · rw [if_pos hg] at hr
        by_cases hrec : recOk r0
        · rw [if_pos hrec] at hr
          rcases List.mem_cons.mp hr with rfl | hr
          · exact ⟨List.mem_cons_self _ _, hc⟩
          · obtain ⟨hmem, hconf⟩ := dispatchRows_syncItem_mem parent recOk rs r hr
            exact ⟨List.mem_cons_of_mem r0 hmem, hconf⟩
        · rw [if_neg hrec] at hr
          rcases List.mem_singleton.mp hr with rfl
          exact ⟨List.mem_cons_self _ _, hc⟩
      · rw [if_neg hg] at hr
        rcases List.mem_cons.mp hr with rfl | hr
        · exact ⟨List.mem_cons_self _ _, hc⟩
        · obtain ⟨hmem, hconf⟩ := dispatchRows_syncItem_mem parent recOk rs r hr
          exact ⟨List.mem_cons_of_mem r0 hmem, hconf⟩

/-- C6: when a leaf name occurs more than once among the scanned
filesystem children under the comparator, the built row list contains
exactly one row whose filesystem view has that name key, that row's
cloud slot is the `NAME_CONFLICT` sentinel — the cloud merge never
attaches a cloud node over it — and the dispatch loop never passes it
to `syncItem`, so no action is taken for either colliding name. -/
theorem c6_name_conflict_single_row (key : Nat → Nat) (k : Nat)
    (fsChildren : List FNode) (syncChildren : List SNode) (cloudChildren : List CNode)
    (parent : SyncRow) (recOk : SyncRow → Bool)
    (hdup : 2 ≤ (fsChildren.filter (fun f => decide (key f.name = k))).length) :
    ((buildChildRows key fsChildren syncChildren cloudChildren).filter
        (fsKeyIs key k)).length = 1 ∧
    (∀ r ∈ buildChildRows key fsChildren syncChildren cloudChildren,
      fsKeyIs key k r = true → r.cloudNode = CloudSlot.conflict) ∧
    (∀ r ∈ (dispatchRows parent recOk
        (buildChildRows key fsChildren syncChildren cloudChildren)).syncItemRows,
      fsKeyIs key k r = false) := by
  haveI : IsTotal FNode (fun a b => key a.name ≤ key b.name) :=
    ⟨fun a b => Nat.le_total (key a.name) (key b.name)⟩
  haveI : IsTrans FNode (fun a b => key a.name ≤ key b.name) :=
    ⟨fun _ _ _ hab hbc => le_trans hab hbc⟩
  have hsorted : (sortFs key fsChildren).Pairwise (fun a b => key a.name ≤ key b.name) :=
    List.sorted_insertionSort _ _
  have hdup2 : 2 ≤ ((sortFs key fsChildren).filter
      (fun f => decide (key f.name = k))).length := by
    unfold sortFs
    rw [((List.perm_insertionSort _ fsChildren).filter _).length_eq]
    exact hdup
  obtain ⟨hc0, hk0⟩ := buildRows_dup_count key k (sortFs key fsChildren)
    (sortSy key syncChildren) hsorted
  have hcount0 : ((buildRows key (sortFs key fsChildren) (sortSy key syncChildren)).filter
      (fsKeyIs key k)).length = 1 := by
    rw [hc0]
    omega
  have hpermS := List.perm_insertionSort
    (fun a b => key (rowName a) ≤ key (rowName b))
    (buildRows key (sortFs key fsChildren) (sortSy key syncChildren))
  have hcountS : ((sortRows key (buildRows key (sortFs key fsChildren)
      (sortSy key syncChildren))).filter (fsKeyIs key k)).length = 1 := by
    unfold sortRows
    rw [(hpermS.filter _).length_eq]
    exact hcount0
  have hkS : ∀ r ∈ sortRows key (buildRows key (sortFs key fsChildren)
      (sortSy key syncChildren)), fsKeyIs key k r = true →
      r.cloudNode = CloudSlot.conflict := by
    intro r hr hkey
    refine hk0 hdup2 r ?_ hkey
    unfold sortRows at hr
    exact hpermS.subset hr
  obtain ⟨hrel, happ⟩ := mergeCloudsAux_facts key (sortClouds key cloudChildren)
    (sortRows key (buildRows key (sortFs key fsChildren) (sortSy key syncChildren)))
  have hconfl : ∀ r ∈ buildChildRows key fsChildren syncChildren cloudChildren,
      fsKeyIs key k r = true → r.cloudNode = CloudSlot.conflict := by
    intro r hr hkey
    unfold buildChildRows mergeClouds at hr
    rcases List.mem_append.mp hr with hr | hr
    · obtain ⟨r0, hr0, hR⟩ := forall2_exists_partner hrel r hr
      have hkey0 : fsKeyIs key k r0 = true := by
        unfold fsKeyIs at hkey ⊢
        rw [← hR.2.1]
        exact hkey
      have hc := hkS r0 hr0 hkey0
      rw [hR.2.2 hc]
      exact hc
    · have := happ r hr
      unfold fsKeyIs at hkey
      rw [this] at hkey
      cases hkey
  refine ⟨?_, hconfl, ?_⟩
  · unfold buildChildRows mergeClouds
    rw [List.filter_append, List.length_append]
    have h1 := forall2_fsKeyIs_filter_len key k hrel
    have h2 : ((mergeCloudsAux key (sortClouds key cloudChildren)
        (sortRows key (buildRows key (sortFs key fsChildren)
          (sortSy key syncChildren)))).2.filter (fsKeyIs key k)) = [] := by
      rw [List.filter_eq_nil_iff]
      intro r hr
      have := happ r hr
      unfold fsKeyIs
      rw [this]
      simp
    rw [h1, hcountS, h2]
    rfl
  · intro r hr
    obtain ⟨hmem, hconf⟩ := dispatchRows_syncItem_mem parent recOk _ r hr
    cases hkey : fsKeyIs key k r with
    | false => rfl
    | true => exact absurd (hconfl r hmem hkey) hconf

/-- The comparator key of the C6 witness: names collide when they
agree up to their last decimal digit (10 and 11 collide). -/
def c6Key (n : Nat) : Nat := n / 10

/-- First colliding filesystem entry of the C6 witness. -/
def c6FsA : FNode := { name := 10, ntype := NType.file, fsid := none }

/-- Second colliding filesystem entry of the C6 witness. -/
def c6FsB : FNode := { name := 11, ntype := NType.file, fsid := none }

/-- A cloud child whose canonical name collides with the two entries. -/
def c6Cloud : CNode := { name := 10, pending := false }

/-- The parent row used by the C6 witness dispatch. -/
def c6Parent : SyncRow :=
  { cloudNode := CloudSlot.node { name := 0, pending := false }
    syncNode := some { name := 0, ntype := NType.folder, scanAgain := TreeAction.resolved
                       syncAgain := TreeAction.hereOnly, syncedCloudNodeHandle := none
                       transferActive := false }
    fsNode := some { name := 0, ntype := NType.folder, fsid := none } }

/-- Witness for C6 at a concrete directory: two filesystem entries
colliding under the comparator, one cloud child, an empty sync list. -/
theorem c6_name_conflict_single_row_witness :
    ((buildChildRows c6Key [c6FsA, c6FsB] [] [c6Cloud]).filter (fsKeyIs c6Key 1)).length = 1 ∧
    (∀ r ∈ buildChildRows c6Key [c6FsA, c6FsB] [] [c6Cloud],
      fsKeyIs c6Key 1 r = true → r.cloudNode = CloudSlot.conflict) ∧
    (∀ r ∈ (dispatchRows c6Parent (fun _ => true)
        (buildChildRows c6Key [c6FsA, c6FsB] [] [c6Cloud])).syncItemRows,
      fsKeyIs c6Key 1 r = false) :=
  c6_name_conflict_single_row c6Key 1 [c6FsA, c6FsB] [] [c6Cloud] c6Parent
    (fun _ => true) (by decide)

/-- The sync root node as a member of its own fingerprint class: a
folder whose light fingerprint combines its file children
(sync.cpp:244-248 collects it with no root exclusion). -/
def c4Root : LNode :=
  { nid := 0, isRoot := true, ntype := NType.folder, size := 0, mtime := 0
    fsid := none, path := ['r'] }

/-- A live directory entry whose path equals the root's path, as the
live walk of the sync root produces. -/
def c4RootFile : FsFile := { fsid := 77, path := ['r'] }

/-- A cached file node used by the C4 theorems. -/
def c4Node : LNode :=
  { nid := 3, isRoot := false, ntype := NType.file, size := 5, mtime := 9
    fsid := none, path := ['a', '/', 'x'] }

/-- A live file whose leaf matches the cached node. -/
def c4FileA : FsFile := { fsid := 9, path := ['b', '/', 'x'] }

/-- A live file whose leaf does not match the cached node. -/
def c4FileB : FsFile := { fsid := 10, path := ['y'] }

/-- C4 as stated fails on the code: in a fingerprint class containing
the sync root and a live entry matching its path, the built pair list
is not the full cached-node times live-file product minus its score-0
pairs — the root's pair is dropped even though its reverse path match
score is strictly positive (sync.cpp:355 skips the root before any
score is computed). -/
theorem c4_all_pairs_counterexample :
    buildElements '/' [c4Root] [c4RootFile] ≠
      (allPairs '/' [c4Root] [c4RootFile]).filter (fun e => decide (e.score ≠ 0)) ∧
    0 < (elemOf '/' c4Root c4RootFile).score := by
  decide

/-- Witness for the amended C4 at a concrete class containing the sync
root alongside an ordinary node and two files: the pair construction
is the root-free filtered product, the processed list is sorted
descending, and the first greedy step calls `setfsid`. -/
theorem c4_fsid_assignment_greedy_nonroot_witness :
    (buildElements '/' [c4Root, c4Node] [c4FileA, c4FileB] =
      (allPairs '/' ([c4Root, c4Node].filter (fun l => !l.isRoot))
        [c4FileA, c4FileB]).filter (fun e => decide (e.score ≠ 0))) ∧
    (classElems '/' [c4Root, c4Node] [c4FileA, c4FileB]).Pairwise
      (fun a b => b.score ≤ a.score) ∧
    (classStateAt '/' [c4Root, c4Node] [c4FileA, c4FileB] [] 1).calls = [(3, 9)] :=
  ⟨(c4_fsid_assignment_greedy_nonroot '/' [c4Root, c4Node] [c4FileA, c4FileB] []
      (by decide)).1,
   (c4_fsid_assignment_greedy_nonroot '/' [c4Root, c4Node] [c4FileA, c4FileB] []
      (by decide)).2.2.1,
   by decide⟩

end SyncSpec
